import Mathlib

/-!
Verification of the PDF-to-JPG conversion core (`src/windows/main.py`).

The development shallowly embeds the conversion pipeline: the data model
(`PDFItem`, `Job`, `ConversionStatus`), the naming services
(`PDFItem.sanitize_name`, `FileSystemService.resolve_collision`,
`FileSystemService.page_filename`), the background worker
(`ConversionWorker.run`) and the main-window event handlers that fold the
worker's emitted events back into the queued items.

Effectful operations (directory creation, document opening, page rendering,
the cooperative cancellation flag) are parametrised by an environment
`WorkerEnv` of oracles; the cancellation flag is modelled as a monotone
boolean stream read once per check point, matching the single
false-to-true transition of `ConversionWorker._cancelled`.
-/

set_option maxRecDepth 4000

-- ===========================================================================
-- Decimal rendering of naturals (Python `str(n)` for non-negative ints)
-- ===========================================================================

/-- Little-endian decimal digits of `n`, computed with structural fuel
(`fuel = n` suffices because `n / 10 < n` for `n ≥ 10`). -/
def toDigitsRevFuel : Nat → Nat → List Nat
  | 0, n => [n]
  | fuel + 1, n => if n < 10 then [n] else n % 10 :: toDigitsRevFuel fuel (n / 10)

/-- Little-endian decimal digits of `n`. -/
def toDigitsRev (n : Nat) : List Nat := toDigitsRevFuel n n

/-- Value of a little-endian digit list. -/
def fromDigitsRev : List Nat → Nat
  | [] => 0
  | d :: ds => d + 10 * fromDigitsRev ds

/-- A single decimal digit as a character. -/
def digitChar : Nat → Char
  | 0 => '0' | 1 => '1' | 2 => '2' | 3 => '3' | 4 => '4'
  | 5 => '5' | 6 => '6' | 7 => '7' | 8 => '8' | _ => '9'

/-- Python `str(n)` for a natural number. -/
def natStr (n : Nat) : String := String.mk ((toDigitsRev n).reverse.map digitChar)

/-- Python `str.zfill`: left-pad with zeros up to `width`. -/
def zfill (s : String) (width : Nat) : String :=
  if width ≤ s.length then s
  else String.mk (List.replicate (width - s.length) '0' ++ s.data)

-- ===========================================================================
-- Data model (`ConversionStatus`, `PDFItem`, `Job`)
-- ===========================================================================

/-- `ConversionStatus` enum from the source. -/
inductive Status where
  | pending
  | in_progress
  | completed
  | failed
  | cancelled
  | skipped
deriving DecidableEq

/-- A character replaced by `re.sub(r'[<>:"/\\|?*]', '-', name)`. -/
def isIllegalChar (c : Char) : Bool :=
  c == '<' || c == '>' || c == ':' || c == '"' || c == '/' ||
  c == '\\' || c == '|' || c == '?' || c == '*'

/-- A character removed by `.strip('. ')`. -/
def isStripChar (c : Char) : Bool := c == '.' || c == ' '

/-- Strip characters from the left end (half of Python `strip`). -/
def lstrip (l : List Char) : List Char := l.dropWhile isStripChar

/-- Strip characters from the right end (half of Python `strip`). -/
def rstrip (l : List Char) : List Char := (l.reverse.dropWhile isStripChar).reverse

/-- The substitution performed by `re.sub(r'[<>:"/\\|?*]', '-', name)`
on one character. -/
def replaceChar (c : Char) : Char := if isIllegalChar c then '-' else c

/-- `PDFItem.sanitize_name`: replace illegal filesystem characters by `-`,
strip leading/trailing dots and spaces, fall back to `"untitled"`. -/
def PDFItem.sanitize_name (name : String) : String :=
  if (rstrip (lstrip (name.data.map replaceChar))).isEmpty then "untitled"
  else String.mk (rstrip (lstrip (name.data.map replaceChar)))

/-- The underlying document file on disk: its page count and whether it is
password protected. A path that cannot be opened or parsed is modelled as
`Option.none` at the call sites. -/
structure PDFDoc where
  pages : Nat
  encrypted : Bool
deriving DecidableEq

/-- `PDFItem` dataclass from the source. -/
structure PDFItem where
  path : String
  original_filename : String
  sanitized_name : String
  page_count : Nat
  status : Status := Status.pending
  completed_pages : Nat := 0
  failed_pages : List Nat := []
  is_password_protected : Bool := false
deriving DecidableEq

/-- Body of `PDFItem.from_path` once the document opened successfully:
`page_count = len(doc) if not is_encrypted else 0`. -/
def PDFItem.from_doc (path : String) (name : String) (d : PDFDoc) : PDFItem :=
  { path := path
    original_filename := name
    sanitized_name := PDFItem.sanitize_name name
    page_count := if d.encrypted then 0 else d.pages
    status := Status.pending
    completed_pages := 0
    failed_pages := []
    is_password_protected := d.encrypted }

/-- `PDFItem.from_path`: `fitz.open` failure (any exception) yields `None`. -/
def PDFItem.from_path (path : String) (name : String) (file : Option PDFDoc) :
    Option PDFItem :=
  match file with
  | none => none
  | some d => some (PDFItem.from_doc path name d)

/-- `Job` dataclass from the source; paths are lists of components. -/
structure Job where
  destination_path : Option (List String) := none
  folder_name : String := ""
  pdf_items : List PDFItem := []
  is_running : Bool := false
  is_cancelled : Bool := false

/-- `Job.sanitized_folder_name` property. -/
def Job.sanitized_folder_name (j : Job) : String :=
  PDFItem.sanitize_name j.folder_name

/-- `Job.job_folder_path` property: `None` when no destination is set. -/
def Job.job_folder_path (j : Job) : Option (List String) :=
  match j.destination_path with
  | none => none
  | some d => some (d ++ [j.sanitized_folder_name])

-- ===========================================================================
-- FileSystemService
-- ===========================================================================

/-- The name `f"{base_name}_{counter}"` probed by the collision loop. -/
def numberedName (base : String) (counter : Nat) : String :=
  base ++ "_" ++ natStr counter

/-- The `while f"{base_name}_{counter}" in existing_names: counter += 1`
loop of `FileSystemService.resolve_collision`, with structural fuel.
`collideLoop_fuel_stable` below shows any fuel of at least
`existing.length + 1` gives the loop's fixpoint, i.e. the Python loop
terminates with this value. -/
def collideLoop (base : String) (existing : List String) :
    Nat → Nat → String
  | counter, 0 => numberedName base counter
  | counter, fuel + 1 =>
    if numberedName base counter ∈ existing then
      collideLoop base existing (counter + 1) fuel
    else numberedName base counter

/-- `FileSystemService.resolve_collision`. The Python set of used names is
modelled as a list with membership. -/
def FileSystemService.resolve_collision (base_name : String)
    (existing_names : List String) : String :=
  if base_name ∈ existing_names then
    collideLoop base_name existing_names 1 (existing_names.length + 1)
  else base_name

/-- `FileSystemService.page_filename`:
`padding = len(str(total_pages))`, name `f"{pdf_name}_page_{str(page_num).zfill(padding)}.jpg"`. -/
def FileSystemService.page_filename (page_num total_pages : Nat)
    (pdf_name : String) : String :=
  pdf_name ++ "_page_" ++ zfill (natStr page_num) ((natStr total_pages).length) ++ ".jpg"

-- ===========================================================================
-- Worker environment (oracles for the effectful calls)
-- ===========================================================================

/-- Worker signal payloads. Statuses are carried as the strings the worker
emits (`pdf_status_changed.emit(i, "...")`). -/
inductive Event where
  | progress (pdf_index page_num completed : Nat)
  | statusChanged (pdf_index : Nat) (status : String)
  | finished
  | error (message : String)
deriving DecidableEq

/-- Oracles for the worker's effectful calls:
`mkdirOk` is the outcome of `FileSystemService.create_directory` on a path;
`openResult i` is the outcome of `fitz.open(item.path)` for the `i`-th item
(`none` = exception, `some n` = document with `n` pages);
`renderOk i p` is the outcome of `ConversionService.convert_page` for
0-based page `p` of item `i` (its output path is determined by `(i, p)`);
`tCancel` is the check-point index from which reads of `_cancelled` return
true (`none` = never cancelled). -/
structure WorkerEnv where
  mkdirOk : List String → Bool
  openResult : Nat → Option Nat
  renderOk : Nat → Nat → Bool
  tCancel : Option Nat

/-- One read of the cooperative cancellation flag at check point `k`:
the flag transitions once from false to true, at check `t`. -/
def cancelRead (tc : Option Nat) (k : Nat) : Bool :=
  match tc with
  | none => false
  | some t => decide (t ≤ k)

/-- `FileSystemService.create_directory`, an environment oracle. -/
def FileSystemService.create_directory (env : WorkerEnv) (path : List String) : Bool :=
  env.mkdirOk path

-- ===========================================================================
-- ConversionWorker.run
-- ===========================================================================

/-- The page loop of `ConversionWorker.run` (`for page_num in range(page_count)`)
over the remaining 0-based page numbers. Arguments after the page list:
check counter, `completed`, local `failed_pages`. Returns the emitted
events, the final `completed`, the final local `failed_pages` and the
check counter after the loop. -/
def runPages (env : WorkerEnv) (i : Nat) :
    List Nat → Nat → Nat → List Nat → List Event × Nat × List Nat × Nat
  | [], k, completed, failed_pages => ([], completed, failed_pages, k)
  | page_num :: rest, k, completed, failed_pages =>
    if cancelRead env.tCancel k then
      ([Event.statusChanged i "cancelled"], completed, failed_pages, k + 1)
    else
      let ok := env.renderOk i page_num
      let completed' := if ok then completed + 1 else completed
      let failed' := if ok then failed_pages else failed_pages ++ [page_num + 1]
      let r := runPages env i rest (k + 1) completed' failed'
      (Event.progress i (page_num + 1) completed' :: r.1, r.2.1, r.2.2.1, r.2.2.2)

/-- One iteration of the document loop of `ConversionWorker.run` for item
`i`. Returns the emitted events, the updated used-name set and the check
counter after the iteration. -/
def processItem (env : WorkerEnv) (job_folder : List String) (i : Nat)
    (item : PDFItem) (existing_names : List String) (k : Nat) :
    List Event × List String × Nat :=
  if cancelRead env.tCancel k then
    ([Event.statusChanged i "cancelled"], existing_names, k + 1)
  else if item.is_password_protected then
    ([Event.statusChanged i "in_progress", Event.statusChanged i "skipped"],
      existing_names, k + 1)
  else
    let subfolder_name :=
      FileSystemService.resolve_collision item.sanitized_name existing_names
    let existing' := existing_names ++ [subfolder_name]
    if !env.mkdirOk (job_folder ++ [subfolder_name]) then
      ([Event.statusChanged i "in_progress", Event.statusChanged i "failed"],
        existing', k + 1)
    else
      match env.openResult i with
      | none =>
        ([Event.statusChanged i "in_progress", Event.statusChanged i "failed"],
          existing', k + 1)
      | some page_count =>
        let r := runPages env i (List.range page_count) (k + 1) 0 []
        if cancelRead env.tCancel r.2.2.2 then
          (Event.statusChanged i "in_progress" :: r.1, existing', r.2.2.2 + 1)
        else
          let status :=
            if r.2.2.1.length = 0 then "completed"
            else if r.2.1 = 0 then "failed"
            else "completed"
          (Event.statusChanged i "in_progress" :: r.1 ++ [Event.statusChanged i status],
            existing', r.2.2.2 + 1)

/-- The document loop of `ConversionWorker.run`
(`for i, item in enumerate(self.job.pdf_items)`). -/
def runItems (env : WorkerEnv) (job_folder : List String) :
    List PDFItem → Nat → List String → Nat → List Event
  | [], _, _, _ => []
  | item :: rest, i, existing_names, k =>
    let r := processItem env job_folder i item existing_names k
    r.1 ++ runItems env job_folder rest (i + 1) r.2.1 r.2.2

/-- `ConversionWorker.run`. -/
def ConversionWorker.run (env : WorkerEnv) (job : Job) : List Event :=
  match job.job_folder_path with
  | none => [Event.error "Invalid job folder path", Event.finished]
  | some job_folder =>
    if !FileSystemService.create_directory env job_folder then
      [Event.error "Failed to create job folder", Event.finished]
    else
      runItems env job_folder job.pdf_items 0 [] 0 ++ [Event.finished]

-- ===========================================================================
-- MainWindow: queueing and event handlers
-- ===========================================================================

/-- `status_map` of `MainWindow.on_status_changed`
(unknown strings default to `PENDING`). -/
def status_map (s : String) : Status :=
  if s = "pending" then Status.pending
  else if s = "in_progress" then Status.in_progress
  else if s = "completed" then Status.completed
  else if s = "failed" then Status.failed
  else if s = "cancelled" then Status.cancelled
  else if s = "skipped" then Status.skipped
  else Status.pending

/-- Update the `i`-th item if the index is in range
(the `if pdf_index < len(self.job.pdf_items)` guards). -/
def updateAt (items : List PDFItem) (i : Nat) (f : PDFItem → PDFItem) :
    List PDFItem :=
  match items[i]? with
  | some it => items.set i (f it)
  | none => items

/-- `MainWindow.on_progress_updated` restricted to the job state
(progress-bar widgets are outside the model). -/
def MainWindow.on_progress_updated (items : List PDFItem)
    (pdf_index page_num completed : Nat) : List PDFItem :=
  updateAt items pdf_index (fun it => { it with completed_pages := completed })

/-- `MainWindow.on_status_changed` restricted to the job state. -/
def MainWindow.on_status_changed (items : List PDFItem) (pdf_index : Nat)
    (status : String) : List PDFItem :=
  updateAt items pdf_index (fun it => { it with status := status_map status })

/-- Dispatch one delivered worker event to the connected handler. -/
def applyEvent (items : List PDFItem) : Event → List PDFItem
  | Event.progress i p c => MainWindow.on_progress_updated items i p c
  | Event.statusChanged i s => MainWindow.on_status_changed items i s
  | Event.finished => items
  | Event.error _ => items

/-- Fold a run's event stream through the main-window handlers. -/
def applyEvents (items : List PDFItem) (evs : List Event) : List PDFItem :=
  evs.foldl applyEvent items

/-- One path handled by `MainWindow.add_pdfs`: skip duplicates, inspect,
keep the item only if inspection succeeded and `item.page_count > 0`. -/
def addOnePdf (files : String → Option PDFDoc) (queue : List PDFItem)
    (path : String) : List PDFItem :=
  if queue.any (fun it => it.path == path) then queue
  else
    match PDFItem.from_path path path (files path) with
    | some item => if item.page_count > 0 then queue ++ [item] else queue
    | none => queue

/-- `MainWindow.add_pdfs` (display name modelled as the path itself;
the name only feeds sanitization, which is total on strings). -/
def MainWindow.add_pdfs (files : String → Option PDFDoc)
    (queue : List PDFItem) (paths : List String) : List PDFItem :=
  paths.foldl (addOnePdf files) queue

/-- The per-item reset performed by `MainWindow.start_conversion`. -/
def resetItem (it : PDFItem) : PDFItem :=
  { it with status := Status.pending, completed_pages := 0, failed_pages := [] }

/-- Items at the start of a run. -/
def startItems (job : Job) : List PDFItem := job.pdf_items.map resetItem

/-- The job's items after a run: reset them, run the worker, fold the
emitted events through the main-window handlers. -/
def finalItems (env : WorkerEnv) (job : Job) : List PDFItem :=
  applyEvents (startItems job)
    (ConversionWorker.run env { job with pdf_items := startItems job })

/-- Collision resolution applied in order, updating the used-name set
immediately after each resolution (as the worker does). -/
def resolveSeqGo : List String → List String → List String
  | [], _ => []
  | n :: ns, used =>
    let r := FileSystemService.resolve_collision n used
    r :: resolveSeqGo ns (used ++ [r])

/-- Collision resolution over a list of candidates, from an empty used set. -/
def resolveSeq (names : List String) : List String := resolveSeqGo names []

-- ===========================================================================
-- Event-stream helper predicates
-- ===========================================================================

/-- Is this a `progress_updated` event? -/
def isProgressEvent : Event → Bool
  | Event.progress _ _ _ => true
  | _ => false

/-- Is this a `pdf_status_changed` event with payload `"cancelled"`? -/
def isCancelStatus : Event → Bool
  | Event.statusChanged _ s => s == "cancelled"
  | _ => false

/-- Is this the terminal `finished` event? -/
def isFinishedEvent : Event → Bool
  | Event.finished => true
  | _ => false

/-- The document index an event is about, if any. -/
def eventDocIndex : Event → Option Nat
  | Event.progress i _ _ => some i
  | Event.statusChanged i _ => some i
  | _ => none

/-- Once a `"cancelled"` status has been emitted, no later event in the
stream is a progress event. -/
def noProgressAfterCancel : List Event → Bool
  | [] => true
  | e :: rest =>
    if isCancelStatus e then rest.all (fun x => !isProgressEvent x)
    else noProgressAfterCancel rest

-- ===========================================================================
-- Concrete scenarios (for the end-to-end test cases of the specification)
-- ===========================================================================

/-- A freshly inspected queue item with the given name and page count. -/
def itemOf (name : String) (pages : Nat) (prot : Bool) : PDFItem :=
  { path := name
    original_filename := name
    sanitized_name := PDFItem.sanitize_name name
    page_count := if prot then 0 else pages
    is_password_protected := prot }

/-- Scenario E environment: every page renders except 0-based page 1. -/
def envE : WorkerEnv :=
  { mkdirOk := fun _ => true
    openResult := fun _ => some 3
    renderOk := fun _ p => !(p == 1)
    tCancel := none }

/-- Scenario E job: one three-page document. -/
def jobE : Job :=
  { destination_path := some ["out"], folder_name := "Batch"
    pdf_items := [itemOf "Report" 3 false] }

/-- Scenario D environment: all renders succeed, cancellation flag reads
true from check point 2 on (i.e. set after the first page completed). -/
def envD : WorkerEnv :=
  { mkdirOk := fun _ => true
    openResult := fun i => if i == 0 then some 10 else some 4
    renderOk := fun _ _ => true
    tCancel := some 2 }

/-- Scenario D job: a ten-page document followed by a four-page one. -/
def jobD : Job :=
  { destination_path := some ["out"], folder_name := "Batch"
    pdf_items := [itemOf "Doc" 10 false, itemOf "Other" 4 false] }

/-- Variant of scenario D: the first (two-page) document completes fully,
the flag reads true from check point 5 on, i.e. during the second item. -/
def envD2 : WorkerEnv :=
  { mkdirOk := fun _ => true
    openResult := fun i => if i == 0 then some 2 else some 4
    renderOk := fun _ _ => true
    tCancel := some 5 }

/-- Job for the scenario D variant. -/
def jobD2 : Job :=
  { destination_path := some ["out"], folder_name := "Batch"
    pdf_items := [itemOf "First" 2 false, itemOf "Second" 4 false] }

/-- A filesystem in which every path opens as an encrypted 4-page file. -/
def filesEnc : String → Option PDFDoc := fun _ => some { pages := 4, encrypted := true }

/-- Scenario C environment: everything succeeds, no cancellation. -/
def envC : WorkerEnv :=
  { mkdirOk := fun _ => true
    openResult := fun _ => some 4
    renderOk := fun _ _ => true
    tCancel := none }

/-- Scenario C job: one password-protected document in the queue. -/
def jobC : Job :=
  { destination_path := some ["out"], folder_name := "Batch"
    pdf_items := [itemOf "Locked" 4 true] }

/-- Environment in which every page render fails. -/
def envF : WorkerEnv :=
  { mkdirOk := fun _ => true
    openResult := fun _ => some 2
    renderOk := fun _ _ => false
    tCancel := none }

/-- Environment in which the re-opened document has zero pages. -/
def envZ : WorkerEnv :=
  { mkdirOk := fun _ => true
    openResult := fun _ => some 0
    renderOk := fun _ _ => true
    tCancel := none }

/-- A job with no destination selected. -/
def jobNoDest : Job :=
  { destination_path := none, folder_name := "B"
    pdf_items := [itemOf "X" 2 false] }

/-- Environment in which directory creation always fails. -/
def envNoMkdir : WorkerEnv :=
  { mkdirOk := fun _ => false
    openResult := fun _ => some 3
    renderOk := fun _ _ => true
    tCancel := none }

-- ===========================================================================
-- Helper lemmas: decimal digits and `natStr`
-- ===========================================================================

theorem toDigitsRevFuel_stable :
    ∀ f1 f2 n, n ≤ f1 → n ≤ f2 → toDigitsRevFuel f1 n = toDigitsRevFuel f2 n := by
  intro f1
  induction f1 with
  | zero =>
    intro f2 n h1 _
    interval_cases n
    cases f2 with
    | zero => rfl
    | succ g => simp [toDigitsRevFuel]
  | succ g ih =>
    intro f2 n h1 h2
    by_cases h10 : n < 10
    · cases f2 with
      | zero =>
        interval_cases n
        simp [toDigitsRevFuel]
      | succ h => simp [toDigitsRevFuel, h10]
    · push_neg at h10
      cases f2 with
      | zero => omega
      | succ h =>
        have hg : n / 10 ≤ g := by omega
        have hh : n / 10 ≤ h := by omega
        simp only [toDigitsRevFuel, if_neg (by omega : ¬ n < 10)]
        exact congrArg _ (ih h (n / 10) hg hh)

theorem toDigitsRev_of_lt10 {n : Nat} (h : n < 10) : toDigitsRev n = [n] := by
  cases n with
  | zero => rfl
  | succ m => simp [toDigitsRev, toDigitsRevFuel, h]

theorem toDigitsRev_of_ge10 {n : Nat} (h : 10 ≤ n) :
    toDigitsRev n = n % 10 :: toDigitsRev (n / 10) := by
  have hn : n = (n - 1) + 1 := by omega
  rw [toDigitsRev]
  rw [hn]
  simp only [toDigitsRevFuel, if_neg (by omega : ¬ (n - 1) + 1 < 10)]
  rw [← hn]
  refine congrArg _ ?_
  exact toDigitsRevFuel_stable (n - 1) (n / 10) (n / 10) (by omega) le_rfl

theorem toDigitsRev_digits_lt10 : ∀ n, ∀ d ∈ toDigitsRev n, d < 10 := by
  intro n
  induction n using Nat.strong_induction_on with
  | _ n ih =>
    by_cases h10 : n < 10
    · rw [toDigitsRev_of_lt10 h10]
      intro d hd
      simp at hd
      omega
    · push_neg at h10
      rw [toDigitsRev_of_ge10 h10]
      intro d hd
      rcases List.mem_cons.mp hd with h | h
      · omega
      · exact ih (n / 10) (by omega) d h

theorem fromDigitsRev_toDigitsRev : ∀ n, fromDigitsRev (toDigitsRev n) = n := by
  intro n
  induction n using Nat.strong_induction_on with
  | _ n ih =>
    by_cases h10 : n < 10
    · rw [toDigitsRev_of_lt10 h10]
      simp [fromDigitsRev]
    · push_neg at h10
      rw [toDigitsRev_of_ge10 h10]
      simp only [fromDigitsRev]
      rw [ih (n / 10) (by omega)]
      omega

theorem toDigitsRev_injective {a b : Nat} (h : toDigitsRev a = toDigitsRev b) :
    a = b := by
  have ha := fromDigitsRev_toDigitsRev a
  have hb := fromDigitsRev_toDigitsRev b
  rw [← ha, ← hb, h]

theorem digitChar_injOn :
    ∀ d e : Fin 10, digitChar d.val = digitChar e.val → d.val = e.val := by decide

theorem digitChar_inj {d e : Nat} (hd : d < 10) (he : e < 10)
    (h : digitChar d = digitChar e) : d = e :=
  digitChar_injOn ⟨d, hd⟩ ⟨e, he⟩ h

theorem map_digitChar_inj :
    ∀ l1 l2 : List Nat, (∀ d ∈ l1, d < 10) → (∀ d ∈ l2, d < 10) →
      l1.map digitChar = l2.map digitChar → l1 = l2 := by
  intro l1
  induction l1 with
  | nil =>
    intro l2 _ _ h
    cases l2 with
    | nil => rfl
    | cons b t => simp at h
  | cons a t ih =>
    intro l2 h1 h2 h
    cases l2 with
    | nil => simp at h
    | cons b t2 =>
      simp only [List.map_cons, List.cons.injEq] at h
      have hab : a = b :=
        digitChar_inj (h1 a (by simp)) (h2 b (by simp)) h.1
      have ht : t = t2 :=
        ih t2 (fun d hd => h1 d (by simp [hd])) (fun d hd => h2 d (by simp [hd])) h.2
      rw [hab, ht]

theorem natStr_injective {a b : Nat} (h : natStr a = natStr b) : a = b := by
  have hdata : ((toDigitsRev a).reverse.map digitChar) =
      ((toDigitsRev b).reverse.map digitChar) := congrArg String.data h
  have hrev : (toDigitsRev a).reverse = (toDigitsRev b).reverse := by
    refine map_digitChar_inj _ _ ?_ ?_ hdata
    · intro d hd
      exact toDigitsRev_digits_lt10 a d (List.mem_reverse.mp hd)
    · intro d hd
      exact toDigitsRev_digits_lt10 b d (List.mem_reverse.mp hd)
  exact toDigitsRev_injective (List.reverse_injective hrev)

theorem toDigitsRev_length_mono : ∀ b a, a ≤ b →
    (toDigitsRev a).length ≤ (toDigitsRev b).length := by
  intro b
  induction b using Nat.strong_induction_on with
  | _ b ih =>
    intro a hab
    by_cases hb : b < 10
    · rw [toDigitsRev_of_lt10 hb, toDigitsRev_of_lt10 (by omega)]
      simp
    · push_neg at hb
      rw [toDigitsRev_of_ge10 hb]
      by_cases ha : a < 10
      · rw [toDigitsRev_of_lt10 ha]
        simp
      · push_neg at ha
        rw [toDigitsRev_of_ge10 ha]
        simp only [List.length_cons, Nat.succ_le_succ_iff]
        exact ih (b / 10) (by omega) (a / 10) (Nat.div_le_div_right hab)

theorem natStr_length (n : Nat) : (natStr n).length = (toDigitsRev n).length := by
  simp [natStr, String.length]

theorem natStr_length_mono {a b : Nat} (h : a ≤ b) :
    (natStr a).length ≤ (natStr b).length := by
  rw [natStr_length, natStr_length]
  exact toDigitsRev_length_mono b a h

theorem zfill_length {s : String} {w : Nat} (h : s.length ≤ w) :
    (zfill s w).length = w := by
  unfold zfill
  by_cases hw : w ≤ s.length
  · rw [if_pos hw]
    omega
  · rw [if_neg hw]
    show (List.replicate (w - s.length) '0' ++ s.data).length = w
    rw [List.length_append, List.length_replicate]
    have hd : s.length = s.data.length := rfl
    omega

-- ===========================================================================
-- Helper lemmas: `numberedName` and the collision loop
-- ===========================================================================

theorem string_data_append (s t : String) : (s ++ t).data = s.data ++ t.data := by
  cases s
  cases t
  rfl

theorem string_mk_data (s : String) : String.mk s.data = s := by
  cases s
  rfl

theorem numberedName_inj {base : String} {c1 c2 : Nat}
    (h : numberedName base c1 = numberedName base c2) : c1 = c2 := by
  unfold numberedName at h
  have hdata := congrArg String.data h
  rw [string_data_append, string_data_append, string_data_append,
    string_data_append] at hdata
  rw [List.append_assoc, List.append_assoc] at hdata
  have h2 := List.append_cancel_left (List.append_cancel_left hdata)
  have : natStr c1 = natStr c2 := by
    have := congrArg String.mk h2
    rwa [string_mk_data, string_mk_data] at this
  exact natStr_injective this

theorem exists_free_counter (base : String) (existing : List String) :
    ∃ c, 1 ≤ c ∧ c ≤ existing.length + 1 ∧ numberedName base c ∉ existing := by
  by_contra hcon
  push_neg at hcon
  set l := (List.range (existing.length + 1)).map (fun j => numberedName base (j + 1))
    with hl
  have hnodup : l.Nodup := by
    refine List.Nodup.map ?_ (List.nodup_range _)
    intro j1 j2 hj
    have := numberedName_inj hj
    omega
  have hsub : l ⊆ existing := by
    intro x hx
    rw [hl, List.mem_map] at hx
    obtain ⟨j, hj, rfl⟩ := hx
    rw [List.mem_range] at hj
    exact hcon (j + 1) (by omega) (by omega)
  have hcard1 : l.toFinset.card = l.length := List.toFinset_card_of_nodup hnodup
  have hcard2 : l.toFinset ⊆ existing.toFinset := by
    intro x hx
    rw [List.mem_toFinset] at hx ⊢
    exact hsub hx
  have hcard3 : existing.toFinset.card ≤ existing.length := List.toFinset_card_le existing
  have hlen : l.length = existing.length + 1 := by
    rw [hl, List.length_map, List.length_range]
  have := Finset.card_le_card hcard2
  omega

theorem collideLoop_eq_of_least (base : String) (existing : List String) :
    ∀ fuel c j0, j0 < fuel →
      numberedName base (c + j0) ∉ existing →
      (∀ j, j < j0 → numberedName base (c + j) ∈ existing) →
      collideLoop base existing c fuel = numberedName base (c + j0) := by
  intro fuel
  induction fuel with
  | zero =>
    intro c j0 h
    omega
  | succ f ih =>
    intro c j0 hlt hfree hbelow
    by_cases hmem : numberedName base c ∈ existing
    · have hj0 : j0 ≠ 0 := by
        intro h0
        rw [h0, Nat.add_zero] at hfree
        exact hfree hmem
      obtain ⟨j', rfl⟩ : ∃ j', j0 = j' + 1 := ⟨j0 - 1, by omega⟩
      rw [collideLoop, if_pos hmem]
      have := ih (c + 1) j' (by omega)
        (by rw [show c + 1 + j' = c + (j' + 1) by omega]; exact hfree)
        (by
          intro j hj
          rw [show c + 1 + j = c + (j + 1) by omega]
          exact hbelow (j + 1) (by omega))
      rw [this]
      congr 1
      omega
    · have hj0 : j0 = 0 := by
        by_contra h0
        exact hmem (by simpa using hbelow 0 (by omega))
      rw [collideLoop, if_neg hmem, hj0, Nat.add_zero]

theorem resolve_collision_free (base : String) (existing : List String) :
    FileSystemService.resolve_collision base existing ∉ existing := by
  unfold FileSystemService.resolve_collision
  by_cases hmem : base ∈ existing
  · rw [if_pos hmem]
    obtain ⟨c, hc1, hc2, hcfree⟩ := exists_free_counter base existing
    have hex : ∃ j, numberedName base (1 + j) ∉ existing :=
      ⟨c - 1, by rwa [show 1 + (c - 1) = c by omega]⟩
    set j0 := Nat.find hex with hj0
    have hfree : numberedName base (1 + j0) ∉ existing := Nat.find_spec hex
    have hbelow : ∀ j, j < j0 → numberedName base (1 + j) ∈ existing := by
      intro j hj
      have := Nat.find_min hex hj
      simpa using this
    have hj0le : j0 ≤ c - 1 := by
      rw [hj0]
      refine Nat.find_min' hex ?_
      rwa [show 1 + (c - 1) = c by omega]
    have := collideLoop_eq_of_least base existing (existing.length + 1) 1 j0
      (by omega) hfree hbelow
    rw [this]
    exact hfree
  · rw [if_neg hmem]
    exact hmem

theorem collideLoop_fuel_stable (base : String) (existing : List String)
    (fuel : Nat) (hfuel : existing.length + 1 ≤ fuel) :
    collideLoop base existing 1 fuel =
      collideLoop base existing 1 (existing.length + 1) := by
  obtain ⟨c, hc1, hc2, hcfree⟩ := exists_free_counter base existing
  have hex : ∃ j, numberedName base (1 + j) ∉ existing :=
    ⟨c - 1, by rwa [show 1 + (c - 1) = c by omega]⟩
  set j0 := Nat.find hex with hj0
  have hfree : numberedName base (1 + j0) ∉ existing := Nat.find_spec hex
  have hbelow : ∀ j, j < j0 → numberedName base (1 + j) ∈ existing := by
    intro j hj
    have := Nat.find_min hex hj
    simpa using this
  have hj0le : j0 ≤ c - 1 := by
    rw [hj0]
    refine Nat.find_min' hex ?_
    rwa [show 1 + (c - 1) = c by omega]
  rw [collideLoop_eq_of_least base existing fuel 1 j0 (by omega) hfree hbelow,
    collideLoop_eq_of_least base existing (existing.length + 1) 1 j0
      (by omega) hfree hbelow]

theorem resolve_collision_of_not_mem {base : String} {existing : List String}
    (h : base ∉ existing) :
    FileSystemService.resolve_collision base existing = base := by
  unfold FileSystemService.resolve_collision
  rw [if_neg h]

theorem resolve_collision_of_mem {base : String} {existing : List String}
    (h : base ∈ existing) :
    ∃ N, 0 < N ∧
      FileSystemService.resolve_collision base existing = numberedName base N ∧
      numberedName base N ∉ existing ∧
      ∀ M, 0 < M → M < N → numberedName base M ∈ existing := by
  obtain ⟨c, hc1, hc2, hcfree⟩ := exists_free_counter base existing
  have hex : ∃ j, numberedName base (1 + j) ∉ existing :=
    ⟨c - 1, by rwa [show 1 + (c - 1) = c by omega]⟩
  set j0 := Nat.find hex with hj0
  have hfree : numberedName base (1 + j0) ∉ existing := Nat.find_spec hex
  have hbelow : ∀ j, j < j0 → numberedName base (1 + j) ∈ existing := by
    intro j hj
    have := Nat.find_min hex hj
    simpa using this
  have hj0le : j0 ≤ c - 1 := by
    rw [hj0]
    refine Nat.find_min' hex ?_
    rwa [show 1 + (c - 1) = c by omega]
  refine ⟨1 + j0, by omega, ?_, hfree, ?_⟩
  · unfold FileSystemService.resolve_collision
    rw [if_pos h]
    exact collideLoop_eq_of_least base existing (existing.length + 1) 1 j0
      (by omega) hfree hbelow
  · intro M hM1 hMlt
    have := hbelow (M - 1) (by omega)
    rwa [show 1 + (M - 1) = M by omega] at this

-- ===========================================================================
-- Helper lemmas: sanitization
-- ===========================================================================

theorem rstrip_eq_rdropWhile (l : List Char) :
    rstrip l = List.rdropWhile isStripChar l := rfl

theorem replaceChar_not_illegal (c : Char) :
    isIllegalChar (replaceChar c) = false := by
  unfold replaceChar
  by_cases h : isIllegalChar c = true
  · rw [if_pos h]
    decide
  · rw [if_neg h]
    simpa using h

theorem replaceChar_eq_self {c : Char} (h : isIllegalChar c = false) :
    replaceChar c = c := by
  unfold replaceChar
  rw [h]
  rfl

theorem mem_lstrip {c : Char} {l : List Char} (h : c ∈ lstrip l) : c ∈ l :=
  (List.IsSuffix.sublist (List.dropWhile_suffix _)).mem h

theorem mem_rstrip {c : Char} {l : List Char} (h : c ∈ rstrip l) : c ∈ l := by
  rw [rstrip_eq_rdropWhile] at h
  exact (List.IsPrefix.sublist (List.rdropWhile_prefix _ _)).mem h

theorem map_eq_self_of_forall {l : List Char} {f : Char → Char}
    (h : ∀ c ∈ l, f c = c) : l.map f = l := by
  induction l with
  | nil => rfl
  | cons a t ih =>
    simp only [List.map_cons, List.cons.injEq]
    exact ⟨h a (by simp), ih (fun c hc => h c (by simp [hc]))⟩

theorem lstrip_idem (l : List Char) : lstrip (lstrip l) = lstrip l :=
  List.dropWhile_idempotent _ _

theorem rstrip_idem (l : List Char) : rstrip (rstrip l) = rstrip l := by
  rw [rstrip_eq_rdropWhile, rstrip_eq_rdropWhile]
  exact List.rdropWhile_idempotent _ _

theorem lstrip_rstrip_of_fixed {m : List Char} (h : lstrip m = m) :
    lstrip (rstrip m) = rstrip m := by
  rcases hr : rstrip m with _ | ⟨a, t⟩
  · rfl
  · have hpre : rstrip m <+: m := by
      rw [rstrip_eq_rdropWhile]
      exact List.rdropWhile_prefix _ _
    rw [hr] at hpre
    obtain ⟨rest, hrest⟩ := hpre
    have hm : m = a :: (t ++ rest) := by
      rw [← hrest]
      simp
    have ha : isStripChar a = false := by
      by_contra hcon
      have ha' : isStripChar a = true := by simpa using hcon
      have hdrop : lstrip m = List.dropWhile isStripChar (t ++ rest) := by
        rw [hm, lstrip, List.dropWhile_cons_of_pos ha']
      have hsub : List.dropWhile isStripChar (t ++ rest) <:+ (t ++ rest) :=
        List.dropWhile_suffix _
      have hlen : (List.dropWhile isStripChar (t ++ rest)).length ≤ (t ++ rest).length :=
        hsub.sublist.length_le
      rw [h] at hdrop
      have : m.length = (t ++ rest).length + 1 := by rw [hm]; simp
      rw [← hdrop] at hlen
      omega
    rw [lstrip, List.dropWhile_cons_of_neg (by simp [ha])]

theorem sanitize_untitled_fixed :
    PDFItem.sanitize_name "untitled" = "untitled" := by decide

theorem sanitize_name_idem (s : String) :
    PDFItem.sanitize_name (PDFItem.sanitize_name s) = PDFItem.sanitize_name s := by
  by_cases hemp : (rstrip (lstrip (s.data.map replaceChar))).isEmpty
  · have h1 : PDFItem.sanitize_name s = "untitled" := by
      unfold PDFItem.sanitize_name
      rw [if_pos hemp]
    rw [h1]
    exact sanitize_untitled_fixed
  · have h1 : PDFItem.sanitize_name s =
        String.mk (rstrip (lstrip (s.data.map replaceChar))) := by
      unfold PDFItem.sanitize_name
      rw [if_neg hemp]
    rw [h1]
    have hmap : (rstrip (lstrip (s.data.map replaceChar))).map replaceChar =
        rstrip (lstrip (s.data.map replaceChar)) := by
      refine map_eq_self_of_forall ?_
      intro c hc
      have hc2 : c ∈ s.data.map replaceChar := mem_lstrip (mem_rstrip hc)
      rw [List.mem_map] at hc2
      obtain ⟨c', _, rfl⟩ := hc2
      exact replaceChar_eq_self (replaceChar_not_illegal c')
    have hls : lstrip (rstrip (lstrip (s.data.map replaceChar))) =
        rstrip (lstrip (s.data.map replaceChar)) :=
      lstrip_rstrip_of_fixed (lstrip_idem _)
    have hrs : rstrip (rstrip (lstrip (s.data.map replaceChar))) =
        rstrip (lstrip (s.data.map replaceChar)) := rstrip_idem _
    unfold PDFItem.sanitize_name
    have hdata : (String.mk (rstrip (lstrip (s.data.map replaceChar)))).data =
        rstrip (lstrip (s.data.map replaceChar)) := rfl
    rw [hdata, hmap, hls, hrs, if_neg hemp]

theorem sanitize_name_of_all_strip {s : String}
    (h : s.data.all isStripChar = true) :
    PDFItem.sanitize_name s = "untitled" := by
  have hmap : s.data.map replaceChar = s.data := by
    refine map_eq_self_of_forall ?_
    intro c hc
    have hstrip : isStripChar c = true := by
      rw [List.all_eq_true] at h
      exact h c hc
    refine replaceChar_eq_self ?_
    have : c = '.' ∨ c = ' ' := by
      have h2 : (c == '.') = true ∨ (c == ' ') = true :=
        Bool.or_eq_true_iff.mp (by simpa [isStripChar] using hstrip)
      rcases h2 with h1 | h1
      · exact Or.inl (by simpa using h1)
      · exact Or.inr (by simpa using h1)
    rcases this with rfl | rfl <;> decide
  have hls : lstrip s.data = [] := by
    rw [lstrip, List.dropWhile_eq_nil_iff]
    intro x hx
    rw [List.all_eq_true] at h
    exact h x hx
  unfold PDFItem.sanitize_name
  rw [hmap, hls]
  rfl

-- ===========================================================================
-- Helper lemmas: the cancellation flag and the page loop
-- ===========================================================================

theorem cancelRead_mono {tc : Option Nat} {j j' : Nat}
    (h : cancelRead tc j = true) (hle : j ≤ j') : cancelRead tc j' = true := by
  cases tc with
  | none => simp [cancelRead] at h
  | some t =>
    simp only [cancelRead, decide_eq_true_eq] at h ⊢
    omega

theorem cancelRead_false_of_le {tc : Option Nat} {j j' : Nat}
    (h : cancelRead tc j' = false) (hle : j ≤ j') : cancelRead tc j = false := by
  by_contra hcon
  have hj : cancelRead tc j = true := by simpa using hcon
  rw [cancelRead_mono hj hle] at h
  simp at h

theorem countP_add_filter_not_length (p : Nat → Bool) :
    ∀ l : List Nat, l.countP p + (l.filter (fun a => !p a)).length = l.length := by
  intro l
  induction l with
  | nil => rfl
  | cons a t ih =>
    by_cases h : p a = true
    · rw [List.countP_cons, List.filter_cons_of_neg (by simp [h]), if_pos h]
      simp only [List.length_cons]
      omega
    · rw [List.countP_cons, List.filter_cons_of_pos (by simpa using h), if_neg h]
      simp only [List.length_cons]
      omega

theorem runPages_no_cancel (env : WorkerEnv) (i : Nat) :
    ∀ (ps : List Nat) (k c : Nat) (f : List Nat),
      (∀ j, j < ps.length → cancelRead env.tCancel (k + j) = false) →
      (runPages env i ps k c f).2.1 = c + ps.countP (fun p => env.renderOk i p) ∧
      (runPages env i ps k c f).2.2.1 =
        f ++ (ps.filter (fun p => !env.renderOk i p)).map (fun p => p + 1) ∧
      (runPages env i ps k c f).2.2.2 = k + ps.length ∧
      ∀ e ∈ (runPages env i ps k c f).1, isProgressEvent e = true := by
  intro ps
  induction ps with
  | nil =>
    intro k c f _
    simp [runPages, List.countP_nil]
  | cons p rest ih =>
    intro k c f h
    have h0 : cancelRead env.tCancel k = false := by
      have := h 0 (by simp)
      simpa using this
    have hrest : ∀ j, j < rest.length → cancelRead env.tCancel (k + 1 + j) = false := by
      intro j hj
      have := h (j + 1) (by simp; omega)
      rwa [show k + (j + 1) = k + 1 + j by omega] at this
    simp only [runPages, h0, Bool.false_eq_true, if_neg (by simp : ¬ False)]
    obtain ⟨ih1, ih2, ih3, ih4⟩ :=
      ih (k + 1) (if env.renderOk i p then c + 1 else c)
        (if env.renderOk i p then f else f ++ [p + 1]) hrest
    refine ⟨?_, ?_, ?_, ?_⟩
    · rw [ih1, List.countP_cons]
      by_cases hok : env.renderOk i p
      · simp only [hok, if_pos rfl]
        simp
        omega
      · have hb : env.renderOk i p = false := by simpa using hok
        simp only [hb]
        simp
    · rw [ih2]
      by_cases hok : env.renderOk i p
      · rw [List.filter_cons_of_neg (by simp [hok])]
        simp [hok]
      · have hb : env.renderOk i p = false := by simpa using hok
        rw [List.filter_cons_of_pos (by simp [hb])]
        simp [hb]
    · rw [ih3]
      simp
      omega
    · intro e he
      simp only [List.mem_cons] at he
      rcases he with rfl | he
      · rfl
      · exact ih4 e he


theorem runPages_nil (env : WorkerEnv) (i k c : Nat) (f : List Nat) :
    runPages env i [] k c f = ([], c, f, k) := rfl

theorem runPages_cons_cancel {env : WorkerEnv} {k : Nat} (i p : Nat) (rest : List Nat)
    (c : Nat) (f : List Nat) (h : cancelRead env.tCancel k = true) :
    runPages env i (p :: rest) k c f =
      ([Event.statusChanged i "cancelled"], c, f, k + 1) := by
  simp [runPages, h]

theorem runPages_cons_go {env : WorkerEnv} {k : Nat} (i p : Nat) (rest : List Nat)
    (c : Nat) (f : List Nat) (h : cancelRead env.tCancel k = false) :
    runPages env i (p :: rest) k c f =
      (Event.progress i (p + 1) (if env.renderOk i p then c + 1 else c) ::
          (runPages env i rest (k + 1) (if env.renderOk i p then c + 1 else c)
            (if env.renderOk i p then f else f ++ [p + 1])).1,
        (runPages env i rest (k + 1) (if env.renderOk i p then c + 1 else c)
          (if env.renderOk i p then f else f ++ [p + 1])).2.1,
        (runPages env i rest (k + 1) (if env.renderOk i p then c + 1 else c)
          (if env.renderOk i p then f else f ++ [p + 1])).2.2.1,
        (runPages env i rest (k + 1) (if env.renderOk i p then c + 1 else c)
          (if env.renderOk i p then f else f ++ [p + 1])).2.2.2) := by
  simp [runPages, h]

theorem runPages_cons_go_events {env : WorkerEnv} {k : Nat} (i p : Nat) (rest : List Nat)
    (c : Nat) (f : List Nat) (h : cancelRead env.tCancel k = false) :
    (runPages env i (p :: rest) k c f).1 =
      Event.progress i (p + 1) (if env.renderOk i p then c + 1 else c) ::
        (runPages env i rest (k + 1) (if env.renderOk i p then c + 1 else c)
          (if env.renderOk i p then f else f ++ [p + 1])).1 := by
  rw [runPages_cons_go i p rest c f h]

theorem runPages_cons_go_completed {env : WorkerEnv} {k : Nat} (i p : Nat) (rest : List Nat)
    (c : Nat) (f : List Nat) (h : cancelRead env.tCancel k = false) :
    (runPages env i (p :: rest) k c f).2.1 =
      (runPages env i rest (k + 1) (if env.renderOk i p then c + 1 else c)
        (if env.renderOk i p then f else f ++ [p + 1])).2.1 := by
  rw [runPages_cons_go i p rest c f h]

theorem runPages_cons_go_failed {env : WorkerEnv} {k : Nat} (i p : Nat) (rest : List Nat)
    (c : Nat) (f : List Nat) (h : cancelRead env.tCancel k = false) :
    (runPages env i (p :: rest) k c f).2.2.1 =
      (runPages env i rest (k + 1) (if env.renderOk i p then c + 1 else c)
        (if env.renderOk i p then f else f ++ [p + 1])).2.2.1 := by
  rw [runPages_cons_go i p rest c f h]

theorem runPages_cons_go_k {env : WorkerEnv} {k : Nat} (i p : Nat) (rest : List Nat)
    (c : Nat) (f : List Nat) (h : cancelRead env.tCancel k = false) :
    (runPages env i (p :: rest) k c f).2.2.2 =
      (runPages env i rest (k + 1) (if env.renderOk i p then c + 1 else c)
        (if env.renderOk i p then f else f ++ [p + 1])).2.2.2 := by
  rw [runPages_cons_go i p rest c f h]

theorem runPages_cancel_mid (env : WorkerEnv) (i t : Nat) (ht : env.tCancel = some t) :
    ∀ (ps : List Nat) (k c : Nat) (f : List Nat), t - k < ps.length →
      (∃ evs, (runPages env i ps k c f).1 = evs ++ [Event.statusChanged i "cancelled"] ∧
        ∀ e ∈ evs, isProgressEvent e = true) ∧
      (runPages env i ps k c f).2.1 =
        c + (ps.take (t - k)).countP (fun p => env.renderOk i p) ∧
      (runPages env i ps k c f).2.2.1 =
        f ++ ((ps.take (t - k)).filter (fun p => !env.renderOk i p)).map (fun p => p + 1) ∧
      (runPages env i ps k c f).2.2.2 = k + (t - k) + 1 := by
  intro ps
  induction ps with
  | nil =>
    intro k c f h
    simp at h
  | cons p rest ih =>
    intro k c f h
    by_cases hk : t ≤ k
    · have hread : cancelRead env.tCancel k = true := by
        simp [cancelRead, ht, hk]
      have hj0 : t - k = 0 := by omega
      rw [hj0, runPages_cons_cancel i p rest c f hread]
      exact ⟨⟨[], by simp, by simp⟩, by simp, by simp, by simp⟩
    · have hread : cancelRead env.tCancel k = false := by
        simp only [cancelRead, ht, decide_eq_false_iff_not]
        omega
      have hlt : t - (k + 1) < rest.length := by
        simp only [List.length_cons] at h
        omega
      obtain ⟨⟨evs, hevs, hprog⟩, ih1, ih2, ih3⟩ :=
        ih (k + 1) (if env.renderOk i p then c + 1 else c)
          (if env.renderOk i p then f else f ++ [p + 1]) hlt
      have htake : (p :: rest).take (t - k) = p :: rest.take (t - (k + 1)) := by
        have h1 : t - k = (t - (k + 1)) + 1 := by omega
        rw [h1, List.take_succ_cons]
      refine ⟨⟨Event.progress i (p + 1) (if env.renderOk i p then c + 1 else c) :: evs,
        ?_, ?_⟩, ?_, ?_, ?_⟩
      · rw [runPages_cons_go_events i p rest c f hread, hevs]
        rfl
      · intro e he
        rcases List.mem_cons.mp he with rfl | he
        · rfl
        · exact hprog e he
      · rw [runPages_cons_go_completed i p rest c f hread, ih1, htake, List.countP_cons]
        by_cases hok : env.renderOk i p = true
        · rw [if_pos hok, if_pos hok]
          omega
        · rw [if_neg hok, if_neg hok]
          omega
      · rw [runPages_cons_go_failed i p rest c f hread, ih2, htake]
        by_cases hok : env.renderOk i p = true
        · rw [if_pos hok, List.filter_cons_of_neg (by simp [hok])]
        · rw [if_neg hok, List.filter_cons_of_pos (by simpa using hok)]
          simp
      · rw [runPages_cons_go_k i p rest c f hread, ih3]
        omega

theorem runPages_shape (env : WorkerEnv) (i : Nat) :
    ∀ (ps : List Nat) (k c : Nat) (f : List Nat),
      (∀ e ∈ (runPages env i ps k c f).1, isProgressEvent e = true) ∨
      (∃ evs, (runPages env i ps k c f).1 = evs ++ [Event.statusChanged i "cancelled"] ∧
        (∀ e ∈ evs, isProgressEvent e = true) ∧
        cancelRead env.tCancel (runPages env i ps k c f).2.2.2 = true) := by
  intro ps
  induction ps with
  | nil =>
    intro k c f
    left
    intro e he
    simp [runPages_nil] at he
  | cons p rest ih =>
    intro p0 c f
    by_cases hread : cancelRead env.tCancel p0 = true
    · right
      rw [runPages_cons_cancel i p rest c f hread]
      refine ⟨[], by simp, by simp, ?_⟩
      show cancelRead env.tCancel (p0 + 1) = true
      exact cancelRead_mono hread (by omega)
    · have hread' : cancelRead env.tCancel p0 = false := by simpa using hread
      rcases ih (p0 + 1) (if env.renderOk i p then c + 1 else c)
          (if env.renderOk i p then f else f ++ [p + 1]) with hleft | ⟨evs, hevs, hprog, hk⟩
      · left
        rw [runPages_cons_go_events i p rest c f hread']
        intro e he
        rcases List.mem_cons.mp he with rfl | he
        · rfl
        · exact hleft e he
      · right
        refine ⟨Event.progress i (p + 1) (if env.renderOk i p then c + 1 else c) :: evs,
          ?_, ?_, ?_⟩
        · rw [runPages_cons_go_events i p rest c f hread', hevs]
          rfl
        · intro e he
          rcases List.mem_cons.mp he with rfl | he
          · rfl
          · exact hprog e he
        · rw [runPages_cons_go_k i p rest c f hread']
          exact hk

theorem runPages_mem (env : WorkerEnv) (i : Nat) :
    ∀ (ps : List Nat) (k c : Nat) (f : List Nat),
      ∀ e ∈ (runPages env i ps k c f).1,
        e = Event.statusChanged i "cancelled" ∨
        ∃ p cc, e = Event.progress i (p + 1) cc ∧ p ∈ ps ∧ cc ≤ c + ps.length := by
  intro ps
  induction ps with
  | nil =>
    intro k c f e he
    simp [runPages_nil] at he
  | cons p rest ih =>
    intro k c f e he
    by_cases hread : cancelRead env.tCancel k = true
    · rw [runPages_cons_cancel i p rest c f hread] at he
      rcases List.mem_singleton.mp he with rfl
      exact Or.inl rfl
    · have hread' : cancelRead env.tCancel k = false := by simpa using hread
      rw [runPages_cons_go_events i p rest c f hread'] at he
      rcases List.mem_cons.mp he with rfl | he
      · right
        refine ⟨p, _, rfl, by simp, ?_⟩
        by_cases hok : env.renderOk i p = true
        · rw [if_pos hok]
          simp only [List.length_cons]
          omega
        · rw [if_neg hok]
          simp only [List.length_cons]
          omega
      · rcases ih (k + 1) (if env.renderOk i p then c + 1 else c)
            (if env.renderOk i p then f else f ++ [p + 1]) e he with hc | ⟨q, cc, rfl, hq, hcc⟩
        · exact Or.inl hc
        · right
          refine ⟨q, cc, rfl, by simp [hq], ?_⟩
          by_cases hok : env.renderOk i p = true
          · rw [if_pos hok] at hcc
            simp only [List.length_cons]
            omega
          · rw [if_neg hok] at hcc
            simp only [List.length_cons]
            omega

-- ===========================================================================
-- Helper lemmas: one document-loop iteration
-- ===========================================================================

theorem processItem_cancel {env : WorkerEnv} {k : Nat} (jf : List String) (i : Nat)
    (item : PDFItem) (ex : List String) (h : cancelRead env.tCancel k = true) :
    processItem env jf i item ex k = ([Event.statusChanged i "cancelled"], ex, k + 1) := by
  simp [processItem, h]

theorem processItem_skipped {env : WorkerEnv} {k : Nat} (jf : List String) (i : Nat)
    (item : PDFItem) (ex : List String) (h1 : cancelRead env.tCancel k = false)
    (h2 : item.is_password_protected = true) :
    processItem env jf i item ex k =
      ([Event.statusChanged i "in_progress", Event.statusChanged i "skipped"], ex, k + 1) := by
  simp [processItem, h1, h2]

theorem processItem_mkdir_fail {env : WorkerEnv} {k : Nat} (jf : List String) (i : Nat)
    (item : PDFItem) (ex : List String) (h1 : cancelRead env.tCancel k = false)
    (h2 : item.is_password_protected = false)
    (h3 : env.mkdirOk
      (jf ++ [FileSystemService.resolve_collision item.sanitized_name ex]) = false) :
    processItem env jf i item ex k =
      ([Event.statusChanged i "in_progress", Event.statusChanged i "failed"],
        ex ++ [FileSystemService.resolve_collision item.sanitized_name ex], k + 1) := by
  simp [processItem, h1, h2, h3]

theorem processItem_open_fail {env : WorkerEnv} {k : Nat} (jf : List String) (i : Nat)
    (item : PDFItem) (ex : List String) (h1 : cancelRead env.tCancel k = false)
    (h2 : item.is_password_protected = false)
    (h3 : env.mkdirOk
      (jf ++ [FileSystemService.resolve_collision item.sanitized_name ex]) = true)
    (h4 : env.openResult i = none) :
    processItem env jf i item ex k =
      ([Event.statusChanged i "in_progress", Event.statusChanged i "failed"],
        ex ++ [FileSystemService.resolve_collision item.sanitized_name ex], k + 1) := by
  simp [processItem, h1, h2, h3, h4]

theorem processItem_run_cancelled {env : WorkerEnv} {k n : Nat} (jf : List String) (i : Nat)
    (item : PDFItem) (ex : List String) (h1 : cancelRead env.tCancel k = false)
    (h2 : item.is_password_protected = false)
    (h3 : env.mkdirOk
      (jf ++ [FileSystemService.resolve_collision item.sanitized_name ex]) = true)
    (h4 : env.openResult i = some n)
    (h5 : cancelRead env.tCancel
      (runPages env i (List.range n) (k + 1) 0 []).2.2.2 = true) :
    processItem env jf i item ex k =
      (Event.statusChanged i "in_progress" ::
          (runPages env i (List.range n) (k + 1) 0 []).1,
        ex ++ [FileSystemService.resolve_collision item.sanitized_name ex],
        (runPages env i (List.range n) (k + 1) 0 []).2.2.2 + 1) := by
  simp [processItem, h1, h2, h3, h4, h5]

theorem processItem_run_done {env : WorkerEnv} {k n : Nat} (jf : List String) (i : Nat)
    (item : PDFItem) (ex : List String) (h1 : cancelRead env.tCancel k = false)
    (h2 : item.is_password_protected = false)
    (h3 : env.mkdirOk
      (jf ++ [FileSystemService.resolve_collision item.sanitized_name ex]) = true)
    (h4 : env.openResult i = some n)
    (h5 : cancelRead env.tCancel
      (runPages env i (List.range n) (k + 1) 0 []).2.2.2 = false) :
    processItem env jf i item ex k =
      (Event.statusChanged i "in_progress" ::
          (runPages env i (List.range n) (k + 1) 0 []).1 ++
          [Event.statusChanged i
            (if (runPages env i (List.range n) (k + 1) 0 []).2.2.1.length = 0 then "completed"
             else if (runPages env i (List.range n) (k + 1) 0 []).2.1 = 0 then "failed"
             else "completed")],
        ex ++ [FileSystemService.resolve_collision item.sanitized_name ex],
        (runPages env i (List.range n) (k + 1) 0 []).2.2.2 + 1) := by
  simp [processItem, h1, h2, h3, h4, h5]

theorem processItem_no_cancel {env : WorkerEnv} {k n : Nat} (jf : List String) (i : Nat)
    (item : PDFItem) (ex : List String)
    (hp : item.is_password_protected = false)
    (hm : env.mkdirOk
      (jf ++ [FileSystemService.resolve_collision item.sanitized_name ex]) = true)
    (ho : env.openResult i = some n)
    (hc : cancelRead env.tCancel (k + n + 1) = false) :
    processItem env jf i item ex k =
      (Event.statusChanged i "in_progress" ::
          (runPages env i (List.range n) (k + 1) 0 []).1 ++
          [Event.statusChanged i
            (if ((List.range n).filter (fun p => !env.renderOk i p)).length = 0 then "completed"
             else if (List.range n).countP (fun p => env.renderOk i p) = 0 then "failed"
             else "completed")],
        ex ++ [FileSystemService.resolve_collision item.sanitized_name ex], k + n + 2) ∧
      (runPages env i (List.range n) (k + 1) 0 []).2.1 =
        (List.range n).countP (fun p => env.renderOk i p) ∧
      (runPages env i (List.range n) (k + 1) 0 []).2.2.1 =
        ((List.range n).filter (fun p => !env.renderOk i p)).map (fun p => p + 1) ∧
      ∀ e ∈ (runPages env i (List.range n) (k + 1) 0 []).1, isProgressEvent e = true := by
  have h1 : cancelRead env.tCancel k = false := cancelRead_false_of_le hc (by omega)
  have hpages : ∀ j, j < (List.range n).length →
      cancelRead env.tCancel (k + 1 + j) = false := by
    intro j hj
    rw [List.length_range] at hj
    exact cancelRead_false_of_le hc (by omega)
  obtain ⟨r1, r2, r3, r4⟩ := runPages_no_cancel env i (List.range n) (k + 1) 0 [] hpages
  rw [List.length_range] at r3
  have h5 : cancelRead env.tCancel
      (runPages env i (List.range n) (k + 1) 0 []).2.2.2 = false := by
    rw [r3]
    exact cancelRead_false_of_le hc (by omega)
  rw [Nat.zero_add] at r1
  rw [List.nil_append] at r2
  refine ⟨?_, r1, r2, r4⟩
  rw [processItem_run_done jf i item ex h1 hp hm ho h5, r1, r2, r3, List.length_map]
  have hk : k + 1 + n + 1 = k + n + 2 := by omega
  rw [hk]

-- ===========================================================================
-- Helper lemmas: the document loop
-- ===========================================================================

theorem runItems_nil (env : WorkerEnv) (jf : List String) (i0 : Nat)
    (ex : List String) (k : Nat) : runItems env jf [] i0 ex k = [] := rfl

theorem runItems_cons (env : WorkerEnv) (jf : List String) (item : PDFItem)
    (rest : List PDFItem) (i0 : Nat) (ex : List String) (k : Nat) :
    runItems env jf (item :: rest) i0 ex k =
      (processItem env jf i0 item ex k).1 ++
        runItems env jf rest (i0 + 1) (processItem env jf i0 item ex k).2.1
          (processItem env jf i0 item ex k).2.2 := rfl

theorem cancelled_map_shift (i0 m : Nat) :
    Event.statusChanged i0 "cancelled" ::
      (List.range m).map (fun j => Event.statusChanged (i0 + 1 + j) "cancelled") =
      (List.range (m + 1)).map (fun j => Event.statusChanged (i0 + j) "cancelled") := by
  rw [List.range_succ_eq_map, List.map_cons, List.map_map]
  simp only [Nat.add_zero, List.cons.injEq]
  refine ⟨trivial, ?_⟩
  refine List.map_congr_left ?_
  intro j _
  simp only [Function.comp]
  congr 1
  omega

theorem runItems_all_cancelled (env : WorkerEnv) (jf : List String) :
    ∀ (items : List PDFItem) (i0 : Nat) (ex : List String) (k : Nat),
      cancelRead env.tCancel k = true →
      runItems env jf items i0 ex k =
        (List.range items.length).map (fun j => Event.statusChanged (i0 + j) "cancelled") := by
  intro items
  induction items with
  | nil =>
    intro i0 ex k _
    simp [runItems_nil]
  | cons item rest ih =>
    intro i0 ex k h
    rw [runItems_cons, processItem_cancel jf i0 item ex h]
    show [Event.statusChanged i0 "cancelled"] ++ runItems env jf rest (i0 + 1) ex (k + 1) = _
    rw [ih (i0 + 1) ex (k + 1) (cancelRead_mono h (by omega)), List.singleton_append,
      cancelled_map_shift, List.length_cons]

theorem isCancelStatus_of_progress {e : Event} (h : isProgressEvent e = true) :
    isCancelStatus e = false := by
  cases e <;> simp_all [isProgressEvent, isCancelStatus]

theorem processItem_shape (env : WorkerEnv) (jf : List String) (i : Nat)
    (item : PDFItem) (ex : List String) (k : Nat) :
    (∀ e ∈ (processItem env jf i item ex k).1, isCancelStatus e = false) ∨
    (∃ evs1, (processItem env jf i item ex k).1 =
        evs1 ++ [Event.statusChanged i "cancelled"] ∧
      (∀ e ∈ evs1, isCancelStatus e = false) ∧
      cancelRead env.tCancel (processItem env jf i item ex k).2.2 = true) := by
  by_cases h1 : cancelRead env.tCancel k = true
  · right
    rw [processItem_cancel jf i item ex h1]
    refine ⟨[], by simp, by simp, ?_⟩
    show cancelRead env.tCancel (k + 1) = true
    exact cancelRead_mono h1 (by omega)
  · have h1' : cancelRead env.tCancel k = false := by simpa using h1
    by_cases h2 : item.is_password_protected = true
    · left
      rw [processItem_skipped jf i item ex h1' h2]
      intro e he
      rcases List.mem_cons.mp he with rfl | he
      · rfl
      · rcases List.mem_singleton.mp he with rfl
        rfl
    · have h2' : item.is_password_protected = false := by simpa using h2
      by_cases h3 : env.mkdirOk
          (jf ++ [FileSystemService.resolve_collision item.sanitized_name ex]) = true
      · rcases h4 : env.openResult i with _ | n
        · left
          rw [processItem_open_fail jf i item ex h1' h2' h3 h4]
          intro e he
          rcases List.mem_cons.mp he with rfl | he
          · rfl
          · rcases List.mem_singleton.mp he with rfl
            rfl
        · by_cases h5 : cancelRead env.tCancel
              (runPages env i (List.range n) (k + 1) 0 []).2.2.2 = true
          · rcases runPages_shape env i (List.range n) (k + 1) 0 [] with hall | ⟨evs, hevs, hprog, _⟩
            · left
              rw [processItem_run_cancelled jf i item ex h1' h2' h3 h4 h5]
              intro e he
              rcases List.mem_cons.mp he with rfl | he
              · rfl
              · exact isCancelStatus_of_progress (hall e he)
            · right
              rw [processItem_run_cancelled jf i item ex h1' h2' h3 h4 h5]
              refine ⟨Event.statusChanged i "in_progress" :: evs, ?_, ?_, ?_⟩
              · rw [hevs]
                rfl
              · intro e he
                rcases List.mem_cons.mp he with rfl | he
                · rfl
                · exact isCancelStatus_of_progress (hprog e he)
              · show cancelRead env.tCancel
                  ((runPages env i (List.range n) (k + 1) 0 []).2.2.2 + 1) = true
                exact cancelRead_mono h5 (by omega)
          · have h5' : cancelRead env.tCancel
                (runPages env i (List.range n) (k + 1) 0 []).2.2.2 = false := by
              simpa using h5
            rcases runPages_shape env i (List.range n) (k + 1) 0 [] with hall | ⟨_, _, _, hk⟩
            · left
              rw [processItem_run_done jf i item ex h1' h2' h3 h4 h5']
              intro e he
              rcases List.mem_cons.mp he with rfl | he
              · rfl
              · rcases List.mem_append.mp he with he | he
                · exact isCancelStatus_of_progress (hall e he)
                · rcases List.mem_singleton.mp he with rfl
                  simp only [isCancelStatus]
                  split
                  · rfl
                  · split <;> rfl
            · rw [hk] at h5'
              simp at h5'
      · have h3' : env.mkdirOk
            (jf ++ [FileSystemService.resolve_collision item.sanitized_name ex]) = false := by
          simpa using h3
        left
        rw [processItem_mkdir_fail jf i item ex h1' h2' h3']
        intro e he
        rcases List.mem_cons.mp he with rfl | he
        · rfl
        · rcases List.mem_singleton.mp he with rfl
          rfl

theorem processItem_mem (env : WorkerEnv) (jf : List String) (i : Nat)
    (item : PDFItem) (ex : List String) (k : Nat) :
    ∀ e ∈ (processItem env jf i item ex k).1,
      (∃ s, e = Event.statusChanged i s) ∨
      (∃ p cc n, e = Event.progress i p cc ∧ env.openResult i = some n ∧
        item.is_password_protected = false ∧ 1 ≤ p ∧ p ≤ n ∧ cc ≤ n) := by
  intro e he
  by_cases h1 : cancelRead env.tCancel k = true
  · rw [processItem_cancel jf i item ex h1] at he
    rcases List.mem_singleton.mp he with rfl
    exact Or.inl ⟨_, rfl⟩
  · have h1' : cancelRead env.tCancel k = false := by simpa using h1
    by_cases h2 : item.is_password_protected = true
    · rw [processItem_skipped jf i item ex h1' h2] at he
      rcases List.mem_cons.mp he with rfl | he
      · exact Or.inl ⟨_, rfl⟩
      · rcases List.mem_singleton.mp he with rfl
        exact Or.inl ⟨_, rfl⟩
    · have h2' : item.is_password_protected = false := by simpa using h2
      by_cases h3 : env.mkdirOk
          (jf ++ [FileSystemService.resolve_collision item.sanitized_name ex]) = true
      · rcases h4 : env.openResult i with _ | n
        · rw [processItem_open_fail jf i item ex h1' h2' h3 h4] at he
          rcases List.mem_cons.mp he with rfl | he
          · exact Or.inl ⟨_, rfl⟩
          · rcases List.mem_singleton.mp he with rfl
            exact Or.inl ⟨_, rfl⟩
        · have hpage : ∀ x ∈ (runPages env i (List.range n) (k + 1) 0 []).1,
              (∃ s, x = Event.statusChanged i s) ∨
              (∃ p cc n', x = Event.progress i p cc ∧ some n = some n' ∧
                item.is_password_protected = false ∧ 1 ≤ p ∧ p ≤ n' ∧ cc ≤ n') := by
            intro x hx
            rcases runPages_mem env i (List.range n) (k + 1) 0 [] x hx with rfl | ⟨p, cc, rfl, hp, hcc⟩
            · exact Or.inl ⟨_, rfl⟩
            · right
              rw [List.mem_range] at hp
              rw [List.length_range] at hcc
              exact ⟨p + 1, cc, n, rfl, rfl, h2', by omega, by omega, by omega⟩
          by_cases h5 : cancelRead env.tCancel
              (runPages env i (List.range n) (k + 1) 0 []).2.2.2 = true
          · rw [processItem_run_cancelled jf i item ex h1' h2' h3 h4 h5] at he
            rcases List.mem_cons.mp he with rfl | he
            · exact Or.inl ⟨_, rfl⟩
            · exact hpage e he
          · have h5' : cancelRead env.tCancel
                (runPages env i (List.range n) (k + 1) 0 []).2.2.2 = false := by
              simpa using h5
            rw [processItem_run_done jf i item ex h1' h2' h3 h4 h5'] at he
            rcases List.mem_cons.mp he with rfl | he
            · exact Or.inl ⟨_, rfl⟩
            · rcases List.mem_append.mp he with he | he
              · exact hpage e he
              · rcases List.mem_singleton.mp he with rfl
                exact Or.inl ⟨_, rfl⟩
      · have h3' : env.mkdirOk
            (jf ++ [FileSystemService.resolve_collision item.sanitized_name ex]) = false := by
          simpa using h3
        rw [processItem_mkdir_fail jf i item ex h1' h2' h3'] at he
        rcases List.mem_cons.mp he with rfl | he
        · exact Or.inl ⟨_, rfl⟩
        · rcases List.mem_singleton.mp he with rfl
          exact Or.inl ⟨_, rfl⟩

theorem runItems_mem (env : WorkerEnv) (jf : List String) :
    ∀ (items : List PDFItem) (i0 : Nat) (ex : List String) (k : Nat),
      ∀ e ∈ runItems env jf items i0 ex k,
        (∃ j s, e = Event.statusChanged j s ∧ i0 ≤ j ∧ j < i0 + items.length) ∨
        (∃ j p cc n it, e = Event.progress j p cc ∧ i0 ≤ j ∧ j < i0 + items.length ∧
          items[j - i0]? = some it ∧ it.is_password_protected = false ∧
          env.openResult j = some n ∧ 1 ≤ p ∧ p ≤ n ∧ cc ≤ n) := by
  intro items
  induction items with
  | nil =>
    intro i0 ex k e he
    simp [runItems_nil] at he
  | cons item rest ih =>
    intro i0 ex k e he
    rw [runItems_cons] at he
    rcases List.mem_append.mp he with he | he
    · rcases processItem_mem env jf i0 item ex k e he with ⟨s, rfl⟩ | ⟨p, cc, n, rfl, ho, hprot, hp1, hp2, hcc⟩
      · left
        exact ⟨i0, s, rfl, le_rfl, by simp⟩
      · right
        refine ⟨i0, p, cc, n, item, rfl, le_rfl, by simp, ?_, hprot, ho, hp1, hp2, hcc⟩
        simp
    · rcases ih (i0 + 1) (processItem env jf i0 item ex k).2.1
          (processItem env jf i0 item ex k).2.2 e he with
        ⟨j, s, rfl, hj1, hj2⟩ | ⟨j, p, cc, n, it, rfl, hj1, hj2, hget, hprot, ho, hp1, hp2, hcc⟩
      · left
        refine ⟨j, s, rfl, by omega, by simp; omega⟩
      · right
        refine ⟨j, p, cc, n, it, rfl, by omega, by simp; omega, ?_, hprot, ho, hp1, hp2, hcc⟩
        have hd : j - i0 = (j - (i0 + 1)) + 1 := by omega
        rw [hd, List.getElem?_cons_succ]
        exact hget

theorem runItems_not_finished (env : WorkerEnv) (jf : List String)
    (items : List PDFItem) (i0 : Nat) (ex : List String) (k : Nat) :
    ∀ e ∈ runItems env jf items i0 ex k, isFinishedEvent e = false := by
  intro e he
  rcases runItems_mem env jf items i0 ex k e he with ⟨j, s, rfl, _, _⟩ | ⟨j, p, cc, _, _, rfl, _⟩
  · rfl
  · rfl

theorem noProgressAfterCancel_of_all {l : List Event}
    (h : ∀ e ∈ l, isProgressEvent e = false) : noProgressAfterCancel l = true := by
  induction l with
  | nil => rfl
  | cons e rest ih =>
    by_cases hc : isCancelStatus e = true
    · simp only [noProgressAfterCancel, hc, if_pos rfl, if_true]
      rw [List.all_eq_true]
      intro x hx
      have := h x (by simp [hx])
      simp [this]
    · have hc' : isCancelStatus e = false := by simpa using hc
      simp only [noProgressAfterCancel, hc', Bool.false_eq_true, if_false]
      exact ih (fun x hx => h x (by simp [hx]))

theorem noProgressAfterCancel_append_nonCancel {a : List Event} (b : List Event)
    (h : ∀ e ∈ a, isCancelStatus e = false) :
    noProgressAfterCancel (a ++ b) = noProgressAfterCancel b := by
  induction a with
  | nil => rfl
  | cons e a' ih =>
    have he : isCancelStatus e = false := h e (by simp)
    simp only [List.cons_append, noProgressAfterCancel, he, Bool.false_eq_true, if_false]
    exact ih (fun x hx => h x (by simp [hx]))

theorem noProgressAfterCancel_append_cancel {a b : List Event} {i : Nat}
    (h : ∀ e ∈ a, isCancelStatus e = false)
    (hb : ∀ e ∈ b, isProgressEvent e = false) :
    noProgressAfterCancel (a ++ Event.statusChanged i "cancelled" :: b) = true := by
  rw [noProgressAfterCancel_append_nonCancel _ h]
  have hcan : isCancelStatus (Event.statusChanged i "cancelled") = true := rfl
  simp only [noProgressAfterCancel, hcan, if_pos rfl, if_true]
  rw [List.all_eq_true]
  intro x hx
  have := hb x hx
  simp [this]

theorem noProgressAfterCancel_append_of {a : List Event}
    (h : noProgressAfterCancel a = true) (b : List Event)
    (hb : ∀ e ∈ b, isProgressEvent e = false) :
    noProgressAfterCancel (a ++ b) = true := by
  induction a with
  | nil => exact noProgressAfterCancel_of_all hb
  | cons e a' ih =>
    by_cases hc : isCancelStatus e = true
    · simp only [List.cons_append, noProgressAfterCancel, hc, if_pos rfl, if_true]
      simp only [noProgressAfterCancel, hc, if_pos rfl, if_true] at h
      rw [List.all_eq_true] at h ⊢
      intro x hx
      rcases List.mem_append.mp hx with hx | hx
      · exact h x hx
      · have := hb x hx
        simp [this]
    · have hc' : isCancelStatus e = false := by simpa using hc
      simp only [List.cons_append, noProgressAfterCancel, hc', Bool.false_eq_true, if_false]
      simp only [noProgressAfterCancel, hc', Bool.false_eq_true, if_false] at h
      exact ih h

theorem runItems_noProgressAfterCancel (env : WorkerEnv) (jf : List String) :
    ∀ (items : List PDFItem) (i0 : Nat) (ex : List String) (k : Nat),
      noProgressAfterCancel (runItems env jf items i0 ex k) = true := by
  intro items
  induction items with
  | nil =>
    intro i0 ex k
    rfl
  | cons item rest ih =>
    intro i0 ex k
    rw [runItems_cons]
    rcases processItem_shape env jf i0 item ex k with hleft | ⟨evs1, hevs, hnc, hk⟩
    · rw [noProgressAfterCancel_append_nonCancel _ hleft]
      exact ih (i0 + 1) _ _
    · rw [hevs, List.append_assoc, List.singleton_append]
      refine noProgressAfterCancel_append_cancel hnc ?_
      rw [runItems_all_cancelled env jf rest (i0 + 1) _ _ hk]
      intro e he
      rw [List.mem_map] at he
      obtain ⟨j, _, rfl⟩ := he
      rfl

-- ===========================================================================
-- Helper lemmas: folding delivered events into the job state
-- ===========================================================================

theorem updateAt_getElem_ne {items : List PDFItem} {i j : Nat}
    (f : PDFItem → PDFItem) (h : i ≠ j) :
    (updateAt items i f)[j]? = items[j]? := by
  unfold updateAt
  rcases hi : items[i]? with _ | it
  · rfl
  · exact List.getElem?_set_ne h

theorem updateAt_getElem_self {items : List PDFItem} {i : Nat} {it : PDFItem}
    (f : PDFItem → PDFItem) (h : items[i]? = some it) :
    (updateAt items i f)[i]? = some (f it) := by
  unfold updateAt
  rw [h]
  obtain ⟨hlt, _⟩ := List.getElem?_eq_some.mp h
  exact List.getElem?_set_self hlt

theorem applyEvents_other_index :
    ∀ (evs : List Event) (items : List PDFItem) (j : Nat),
      (∀ e ∈ evs, eventDocIndex e ≠ some j) →
      (applyEvents items evs)[j]? = items[j]? := by
  intro evs
  induction evs with
  | nil =>
    intro items j _
    rfl
  | cons e rest ih =>
    intro items j h
    show (applyEvents (applyEvent items e) rest)[j]? = _
    rw [ih (applyEvent items e) j (fun x hx => h x (by simp [hx]))]
    cases e with
    | progress i p c =>
      have hne : i ≠ j := by
        intro hij
        exact (h (Event.progress i p c) (by simp)) (by rw [hij]; rfl)
      exact updateAt_getElem_ne _ hne
    | statusChanged i s =>
      have hne : i ≠ j := by
        intro hij
        exact (h (Event.statusChanged i s) (by simp)) (by rw [hij]; rfl)
      exact updateAt_getElem_ne _ hne
    | finished => rfl
    | error m => rfl

theorem applyEvent_track (items : List PDFItem) (e : Event) (j : Nat) (it1 : PDFItem)
    (h : (applyEvent items e)[j]? = some it1) :
    ∃ it0, items[j]? = some it0 ∧
      it1.failed_pages = it0.failed_pages ∧ it1.page_count = it0.page_count ∧
      it1.is_password_protected = it0.is_password_protected ∧
      (it1.completed_pages = it0.completed_pages ∨
        ∃ p, e = Event.progress j p it1.completed_pages) := by
  cases e with
  | progress i p c =>
    by_cases hij : i = j
    · subst hij
      by_cases hnone : items[i]? = none
      · have hid : applyEvent items (Event.progress i p c) = items := by
          show MainWindow.on_progress_updated items i p c = items
          unfold MainWindow.on_progress_updated updateAt
          rw [hnone]
        rw [hid] at h
        rw [h] at hnone
        simp at hnone
      · obtain ⟨it0, hi⟩ := Option.ne_none_iff_exists'.mp hnone
        have h2 : (applyEvent items (Event.progress i p c))[i]? =
            some { it0 with completed_pages := c } :=
          updateAt_getElem_self (fun it => { it with completed_pages := c }) hi
        rw [h2] at h
        injection h with h
        subst h
        exact ⟨it0, hi, rfl, rfl, rfl, Or.inr ⟨p, rfl⟩⟩
    · have h2 : (applyEvent items (Event.progress i p c))[j]? = items[j]? :=
        updateAt_getElem_ne _ hij
      rw [h2] at h
      exact ⟨it1, h, rfl, rfl, rfl, Or.inl rfl⟩
  | statusChanged i s =>
    by_cases hij : i = j
    · subst hij
      by_cases hnone : items[i]? = none
      · have hid : applyEvent items (Event.statusChanged i s) = items := by
          show MainWindow.on_status_changed items i s = items
          unfold MainWindow.on_status_changed updateAt
          rw [hnone]
        rw [hid] at h
        rw [h] at hnone
        simp at hnone
      · obtain ⟨it0, hi⟩ := Option.ne_none_iff_exists'.mp hnone
        have h2 : (applyEvent items (Event.statusChanged i s))[i]? =
            some { it0 with status := status_map s } :=
          updateAt_getElem_self (fun it => { it with status := status_map s }) hi
        rw [h2] at h
        injection h with h
        subst h
        exact ⟨it0, hi, rfl, rfl, rfl, Or.inl rfl⟩
    · have h2 : (applyEvent items (Event.statusChanged i s))[j]? = items[j]? :=
        updateAt_getElem_ne _ hij
      rw [h2] at h
      exact ⟨it1, h, rfl, rfl, rfl, Or.inl rfl⟩
  | finished => exact ⟨it1, h, rfl, rfl, rfl, Or.inl rfl⟩
  | error m => exact ⟨it1, h, rfl, rfl, rfl, Or.inl rfl⟩

theorem applyEvents_track :
    ∀ (evs : List Event) (items : List PDFItem) (j : Nat) (it1 : PDFItem),
      (applyEvents items evs)[j]? = some it1 →
      ∃ it0, items[j]? = some it0 ∧
        it1.failed_pages = it0.failed_pages ∧ it1.page_count = it0.page_count ∧
        it1.is_password_protected = it0.is_password_protected ∧
        (it1.completed_pages = it0.completed_pages ∨
          ∃ p, Event.progress j p it1.completed_pages ∈ evs) := by
  intro evs
  induction evs with
  | nil =>
    intro items j it1 h
    exact ⟨it1, h, rfl, rfl, rfl, Or.inl rfl⟩
  | cons e rest ih =>
    intro items j it1 h
    have h' : (applyEvents (applyEvent items e) rest)[j]? = some it1 := h
    obtain ⟨itm, hmid, hf1, hp1, hw1, hc1⟩ := ih (applyEvent items e) j it1 h'
    obtain ⟨it0, h0, hf2, hp2, hw2, hc2⟩ := applyEvent_track items e j itm hmid
    refine ⟨it0, h0, hf1.trans hf2, hp1.trans hp2, hw1.trans hw2, ?_⟩
    rcases hc1 with hc1 | ⟨p, hmem⟩
    · rcases hc2 with hc2 | ⟨p, he⟩
      · exact Or.inl (hc1.trans hc2)
      · right
        refine ⟨p, ?_⟩
        rw [← hc1] at he
        rw [he]
        simp
    · exact Or.inr ⟨p, by simp [hmem]⟩

-- ===========================================================================
-- Claim theorems
-- ===========================================================================

/-- C5: collision resolution returns the candidate unchanged when it is
unused, and otherwise returns `candidate_N` for the smallest positive `N`
such that `candidate_N` is unused; applied in order to `["a","a","a"]`
starting from an empty used-name set it yields `["a","a_1","a_2"]`. -/
theorem C5_resolve_collision (cand : String) (used : List String) :
    (cand ∉ used → FileSystemService.resolve_collision cand used = cand) ∧
    (cand ∈ used → ∃ N, 0 < N ∧
      FileSystemService.resolve_collision cand used = numberedName cand N ∧
      numberedName cand N ∉ used ∧
      ∀ M, 0 < M → M < N → numberedName cand M ∈ used) ∧
    resolveSeq ["a", "a", "a"] = ["a", "a_1", "a_2"] :=
  ⟨fun h => resolve_collision_of_not_mem h,
   fun h => resolve_collision_of_mem h,
   by decide⟩

theorem C5_resolve_collision_witness :
    FileSystemService.resolve_collision "a" ["b"] = "a" ∧
    ∃ N, 0 < N ∧
      FileSystemService.resolve_collision "a" ["a"] = numberedName "a" N ∧
      numberedName "a" N ∉ ["a"] ∧
      ∀ M, 0 < M → M < N → numberedName "a" M ∈ ["a"] :=
  ⟨(C5_resolve_collision "a" ["b"]).1 (by decide),
   (C5_resolve_collision "a" ["a"]).2.1 (by decide)⟩

/-- C10: for every base name and finite set of existing names, the
collision-probing loop terminates (its value is stable for every fuel of at
least `existing.length + 1` iterations) and the result of
`resolve_collision` is not a member of the existing-name set. -/
theorem C10_resolve_collision_terminates (base : String) (existing : List String) :
    FileSystemService.resolve_collision base existing ∉ existing ∧
    ∀ fuel, existing.length + 1 ≤ fuel →
      collideLoop base existing 1 fuel =
        collideLoop base existing 1 (existing.length + 1) :=
  ⟨resolve_collision_free base existing,
   fun fuel h => collideLoop_fuel_stable base existing fuel h⟩

theorem C10_resolve_collision_terminates_witness :
    FileSystemService.resolve_collision "a" ["a", "a_1"] ∉ ["a", "a_1"] ∧
    collideLoop "a" ["a", "a_1"] 1 5 = collideLoop "a" ["a", "a_1"] 1 3 :=
  ⟨(C10_resolve_collision_terminates "a" ["a", "a_1"]).1,
   (C10_resolve_collision_terminates "a" ["a", "a_1"]).2 5 (by decide)⟩

/-- C6 counterexample: the string `"<"` consists only of illegal characters,
yet sanitization returns `"-"` (the replacement hyphen survives stripping),
not `"untitled"`. -/
theorem C6_counterexample :
    isIllegalChar '<' = true ∧ PDFItem.sanitize_name "<" = "-" ∧
    PDFItem.sanitize_name "<" ≠ "untitled" := by decide

/-- C6 (amended): sanitization is idempotent; and every string that is empty
or consists only of dots and spaces sanitizes to the literal `"untitled"`
(a string containing an illegal character instead sanitizes to a non-empty
name built from hyphens). -/
theorem C6_sanitize_idempotent (s : String) :
    PDFItem.sanitize_name (PDFItem.sanitize_name s) = PDFItem.sanitize_name s ∧
    (s.data.all isStripChar = true → PDFItem.sanitize_name s = "untitled") :=
  ⟨sanitize_name_idem s, fun h => sanitize_name_of_all_strip h⟩

theorem C6_sanitize_idempotent_witness :
    PDFItem.sanitize_name (PDFItem.sanitize_name "a<b.") = PDFItem.sanitize_name "a<b." ∧
    PDFItem.sanitize_name " .. " = "untitled" :=
  ⟨(C6_sanitize_idempotent "a<b.").1, (C6_sanitize_idempotent " .. ").2 (by decide)⟩

/-- C7: page filenames are zero-padded to exactly the digit count of the
document's total page count: the padded digit block always has the width of
`str(total_pages)`; a 120-page document pads to 3 digits
(`_page_001.jpg` … `_page_120.jpg`) and a 5-page document pads to 1 digit. -/
theorem C7_page_filename (pdf_name : String) (page_num total_pages : Nat)
    (h1 : 1 ≤ page_num) (h2 : page_num ≤ total_pages) :
    (zfill (natStr page_num) ((natStr total_pages).length)).length =
      (natStr total_pages).length ∧
    FileSystemService.page_filename page_num total_pages pdf_name =
      pdf_name ++ "_page_" ++
        zfill (natStr page_num) ((natStr total_pages).length) ++ ".jpg" ∧
    FileSystemService.page_filename 1 120 "doc" = "doc_page_001.jpg" ∧
    FileSystemService.page_filename 120 120 "doc" = "doc_page_120.jpg" ∧
    FileSystemService.page_filename 1 5 "doc" = "doc_page_1.jpg" ∧
    FileSystemService.page_filename 5 5 "doc" = "doc_page_5.jpg" :=
  ⟨zfill_length (natStr_length_mono h2), rfl,
   by decide, by decide, by decide, by decide⟩

theorem C7_page_filename_witness :
    (zfill (natStr 7) ((natStr 120).length)).length = (natStr 120).length :=
  (C7_page_filename "doc" 7 120 (by decide) (by decide)).1

/-- C1: evaluation at the failing input. `MainWindow.add_pdfs` drops an
encrypted document from the add operation even though inspection succeeds
(`from_path` records `page_count = 0` for an encrypted file and `add_pdfs`
keeps only items with `page_count > 0`), so the queue stays empty; had a
password-protected item been queued, the worker would mark it `skipped`
immediately after `in_progress` and emit zero progress events for it,
exactly as the run-time half of the claim describes. -/
theorem C1_encrypted_dropped_on_add :
    (PDFItem.from_path "locked.pdf" "locked.pdf" (filesEnc "locked.pdf")).isSome = true ∧
    MainWindow.add_pdfs filesEnc [] ["locked.pdf"] = [] ∧
    ConversionWorker.run envC jobC =
      [Event.statusChanged 0 "in_progress", Event.statusChanged 0 "skipped",
        Event.finished] ∧
    (finalItems envC jobC).map PDFItem.status = [Status.skipped] ∧
    ∀ e ∈ ConversionWorker.run envC jobC, isProgressEvent e = false := by
  refine ⟨by decide, by decide, by decide, by decide, by decide⟩

/-- C9: on every run the `finished` event is emitted exactly once, after the
document loop exits, as the final event of the stream; the two fatal
pre-loop failures (unresolvable destination, job-folder creation failure)
each emit exactly one error event before `finished` and terminate the run
with zero documents processed (no status or progress events at all). -/
theorem C9_finished_once (env : WorkerEnv) (job : Job) :
    (ConversionWorker.run env job).countP (fun e => isFinishedEvent e) = 1 ∧
    (ConversionWorker.run env job).getLast? = some Event.finished ∧
    (job.job_folder_path = none →
      ConversionWorker.run env job =
        [Event.error "Invalid job folder path", Event.finished]) ∧
    (∀ jf, job.job_folder_path = some jf → env.mkdirOk jf = false →
      ConversionWorker.run env job =
        [Event.error "Failed to create job folder", Event.finished]) := by
  rcases hjf : job.job_folder_path with _ | jf
  · have hrun : ConversionWorker.run env job =
        [Event.error "Invalid job folder path", Event.finished] := by
      unfold ConversionWorker.run
      rw [hjf]
    refine ⟨by rw [hrun]; rfl, by rw [hrun]; rfl, fun _ => hrun, ?_⟩
    intro jf' hsome
    exact absurd hsome (by simp)
  · by_cases hmk : env.mkdirOk jf = true
    · have hrun : ConversionWorker.run env job =
          runItems env jf job.pdf_items 0 [] 0 ++ [Event.finished] := by
        unfold ConversionWorker.run
        rw [hjf]
        simp [FileSystemService.create_directory, hmk]
      refine ⟨?_, ?_, ?_, ?_⟩
      · rw [hrun, List.countP_append]
        have h0 : (runItems env jf job.pdf_items 0 [] 0).countP
            (fun e => isFinishedEvent e) = 0 := by
          rw [List.countP_eq_zero]
          intro e he
          simp [runItems_not_finished env jf job.pdf_items 0 [] 0 e he]
        rw [h0]
        rfl
      · rw [hrun, List.getLast?_concat]
      · intro hnone
        exact absurd hnone (by simp)
      · intro jf' hsome hmk'
        injection hsome with hsome
        subst hsome
        rw [hmk] at hmk'
        simp at hmk'
    · have hmk' : env.mkdirOk jf = false := by simpa using hmk
      have hrun : ConversionWorker.run env job =
          [Event.error "Failed to create job folder", Event.finished] := by
        unfold ConversionWorker.run
        rw [hjf]
        simp [FileSystemService.create_directory, hmk']
      refine ⟨by rw [hrun]; rfl, by rw [hrun]; rfl, ?_, fun _ _ _ => hrun⟩
      intro hnone
      exact absurd hnone (by simp)

theorem C9_finished_once_witness :
    ConversionWorker.run envE jobNoDest =
      [Event.error "Invalid job folder path", Event.finished] ∧
    ConversionWorker.run envNoMkdir jobE =
      [Event.error "Failed to create job folder", Event.finished] :=
  ⟨(C9_finished_once envE jobNoDest).2.2.1 (by decide),
   (C9_finished_once envNoMkdir jobE).2.2.2 ["out", "Batch"] (by decide) (by decide)⟩

/-- C2 counterexample: scenario E (a 3-page document whose page 2 fails to
render while pages 1 and 3 succeed). After the run the Document Item has
completed_pages = 2 as the claim says, but its failed_pages field is `[]`,
not `[2]`: the worker keeps the failed page numbers only in a run-local
list and never writes them back to the item. -/
theorem C2_counterexample :
    (finalItems envE jobE).map PDFItem.completed_pages = [2] ∧
    (finalItems envE jobE).map PDFItem.failed_pages = [[]] ∧
    ¬ (finalItems envE jobE).map PDFItem.failed_pages = [[2]] :=
  ⟨by decide, by decide, by decide⟩

/-- C2 (amended): each page whose render fails has its 1-based page number
appended to the worker's run-local failed-pages list for that document (the
list that decides the final status), and the page successes are counted the
same way; the Document Item's own failed_pages field remains empty after
every run because the worker never writes the local list back. In scenario
E the local list is `[2]` while the item ends with completed_pages = 2 and
failed_pages = []. -/
theorem C2_failed_pages (env : WorkerEnv) (job : Job) (i n k c : Nat) (f : List Nat)
    (hnc : env.tCancel = none) :
    (∀ it ∈ finalItems env job, it.failed_pages = []) ∧
    (runPages env i (List.range n) k c f).2.2.1 =
      f ++ ((List.range n).filter (fun p => !env.renderOk i p)).map (fun p => p + 1) ∧
    (runPages env i (List.range n) k c f).2.1 =
      c + (List.range n).countP (fun p => env.renderOk i p) ∧
    (runPages envE 0 (List.range 3) 1 0 []).2.2.1 = [2] ∧
    (finalItems envE jobE).map PDFItem.completed_pages = [2] ∧
    (finalItems envE jobE).map PDFItem.failed_pages = [[]] := by
  have hread : ∀ j, j < (List.range n).length →
      cancelRead env.tCancel (k + j) = false := by
    intro j _
    rw [hnc]
    rfl
  obtain ⟨r1, r2, _, _⟩ := runPages_no_cancel env i (List.range n) k c f hread
  refine ⟨?_, r2, r1, by decide, by decide, by decide⟩
  intro it hit
  obtain ⟨j, hj⟩ := List.mem_iff_getElem?.mp hit
  obtain ⟨it0, h0, hfp, _, _, _⟩ := applyEvents_track _ _ j it hj
  rw [hfp]
  unfold startItems at h0
  rw [List.getElem?_map] at h0
  rcases hx : job.pdf_items[j]? with _ | x
  · rw [hx] at h0
    simp at h0
  · rw [hx] at h0
    injection h0 with h0
    rw [← h0]
    rfl

theorem C2_failed_pages_witness :
    (∀ it ∈ finalItems envE jobE, it.failed_pages = []) ∧
    (runPages envE 0 (List.range 3) 1 0 []).2.2.1 =
      [] ++ ((List.range 3).filter (fun p => !envE.renderOk 0 p)).map (fun p => p + 1) :=
  ⟨(C2_failed_pages envE jobE 0 3 1 0 [] rfl).1,
   (C2_failed_pages envE jobE 0 3 1 0 [] rfl).2.1⟩

/-- C3: for a document that is not skipped (not password-protected), whose
subfolder creation and re-open succeed, and that is not cancelled (the
cancellation flag still reads false at its final-status check), the final
status event emitted for it is `"completed"` exactly when at least one page
succeeded or the document has zero pages, and `"failed"` exactly when zero
pages succeeded and the document has at least one page. Concrete runs: a
3-page document with one failed page completes, an all-pages-failed
document fails, and a zero-page document completes. -/
theorem C3_final_status (env : WorkerEnv) (jf : List String) (i : Nat)
    (item : PDFItem) (ex : List String) (k n : Nat)
    (hp : item.is_password_protected = false)
    (hm : env.mkdirOk
      (jf ++ [FileSystemService.resolve_collision item.sanitized_name ex]) = true)
    (ho : env.openResult i = some n)
    (hc : cancelRead env.tCancel (k + n + 1) = false) :
    ((processItem env jf i item ex k).1.getLast? =
        some (Event.statusChanged i "completed") ↔
      (0 < (List.range n).countP (fun p => env.renderOk i p) ∨ n = 0)) ∧
    ((processItem env jf i item ex k).1.getLast? =
        some (Event.statusChanged i "failed") ↔
      ((List.range n).countP (fun p => env.renderOk i p) = 0 ∧ 0 < n)) ∧
    (finalItems envE jobE).map PDFItem.status = [Status.completed] ∧
    (finalItems envF jobE).map PDFItem.status = [Status.failed] ∧
    (finalItems envZ jobE).map PDFItem.status = [Status.completed] := by
  obtain ⟨heq, _, _, _⟩ := processItem_no_cancel jf i item ex hp hm ho hc
  have h1 : (processItem env jf i item ex k).1 =
      Event.statusChanged i "in_progress" ::
        (runPages env i (List.range n) (k + 1) 0 []).1 ++
        [Event.statusChanged i
          (if ((List.range n).filter (fun p => !env.renderOk i p)).length = 0 then "completed"
           else if (List.range n).countP (fun p => env.renderOk i p) = 0 then "failed"
           else "completed")] := by
    rw [heq]
  have hget : ∀ st : String,
      (Event.statusChanged i "in_progress" ::
        (runPages env i (List.range n) (k + 1) 0 []).1 ++
        [Event.statusChanged i st]).getLast? = some (Event.statusChanged i st) := by
    intro st
    show ((Event.statusChanged i "in_progress" ::
      (runPages env i (List.range n) (k + 1) 0 []).1) ++
      [Event.statusChanged i st]).getLast? = some (Event.statusChanged i st)
    exact List.getLast?_concat _
  have hflen : (List.range n).countP (fun p => env.renderOk i p) +
      ((List.range n).filter (fun p => !env.renderOk i p)).length = n := by
    have := countP_add_filter_not_length (fun p => env.renderOk i p) (List.range n)
    rwa [List.length_range] at this
  have hcf : ("completed" : String) ≠ "failed" := by decide
  by_cases hfl : ((List.range n).filter (fun p => !env.renderOk i p)).length = 0
  · rw [if_pos hfl] at h1
    rw [h1, hget]
    refine ⟨?_, ?_, by decide, by decide, by decide⟩
    · simp only [Option.some.injEq, Event.statusChanged.injEq, true_and, eq_self_iff_true,
        true_iff]
      omega
    · constructor
      · intro hbad
        injection hbad with hbad
        injection hbad with hbad1 hbad2
        exact absurd hbad2 hcf
      · intro ⟨hz, hpos⟩
        omega
  · rw [if_neg hfl] at h1
    by_cases hz : (List.range n).countP (fun p => env.renderOk i p) = 0
    · rw [if_pos hz] at h1
      rw [h1, hget]
      refine ⟨?_, ?_, by decide, by decide, by decide⟩
      · constructor
        · intro hbad
          injection hbad with hbad
          injection hbad with hbad1 hbad2
          exact absurd hbad2.symm hcf
        · intro hor
          omega
      · simp only [Option.some.injEq, Event.statusChanged.injEq, true_and, eq_self_iff_true,
          true_iff]
        omega
    · rw [if_neg hz] at h1
      rw [h1, hget]
      refine ⟨?_, ?_, by decide, by decide, by decide⟩
      · simp only [Option.some.injEq, Event.statusChanged.injEq, true_and, eq_self_iff_true,
          true_iff]
        omega
      · constructor
        · intro hbad
          injection hbad with hbad
          injection hbad with hbad1 hbad2
          exact absurd hbad2 hcf
        · intro ⟨hza, hpos⟩
          omega

theorem C3_final_status_witness :
    ((processItem envE ["out", "Batch"] 0 (itemOf "Report" 3 false) [] 0).1.getLast? =
        some (Event.statusChanged 0 "completed") ↔
      (0 < (List.range 3).countP (fun p => envE.renderOk 0 p) ∨ 3 = 0)) ∧
    ((processItem envE ["out", "Batch"] 0 (itemOf "Report" 3 false) [] 0).1.getLast? =
        some (Event.statusChanged 0 "failed") ↔
      ((List.range 3).countP (fun p => envE.renderOk 0 p) = 0 ∧ 0 < 3)) :=
  ⟨(C3_final_status envE ["out", "Batch"] 0 (itemOf "Report" 3 false) [] 0 3
      rfl rfl rfl rfl).1,
   (C3_final_status envE ["out", "Batch"] 0 (itemOf "Report" 3 false) [] 0 3
      rfl rfl rfl rfl).2.1⟩

/-- C8: after every run, every Document Item's completed_pages never exceeds
its page_count, and every entry of its failed_pages list is a 1-based page
number within [1, page_count]. (The hypothesis ties the page count the
re-open oracle reports to the item's inspected page count, as holds for a
file unchanged between inspection and conversion; after a run failed_pages
is in fact always empty, so the second conjunct holds vacuously.) -/
theorem C8_invariants (env : WorkerEnv) (job : Job)
    (hopen : ∀ j it m, job.pdf_items[j]? = some it →
      it.is_password_protected = false → env.openResult j = some m →
      m = it.page_count) :
    ∀ it ∈ finalItems env job,
      it.completed_pages ≤ it.page_count ∧
      ∀ p ∈ it.failed_pages, 1 ≤ p ∧ p ≤ it.page_count := by
  intro it hit
  obtain ⟨j, hj⟩ := List.mem_iff_getElem?.mp hit
  obtain ⟨it0, h0, hfp, hpc, hprot, hcomp⟩ := applyEvents_track _ _ j it hj
  have h0' := h0
  unfold startItems at h0'
  rw [List.getElem?_map] at h0'
  rcases hx : job.pdf_items[j]? with _ | x
  · rw [hx] at h0'
    simp at h0'
  · rw [hx] at h0'
    injection h0' with h0'
    have hfail : it.failed_pages = [] := by
      rw [hfp, ← h0']
      rfl
    have hpage : it.page_count = x.page_count := by
      rw [hpc, ← h0']
      rfl
    refine ⟨?_, ?_⟩
    swap
    · intro p hp
      rw [hfail] at hp
      simp at hp
    · rcases hcomp with hcomp | ⟨p, hmem⟩
      · rw [hcomp, ← h0']
        show (0 : Nat) ≤ it.page_count
        exact Nat.zero_le _
      · have hjf' : ({ job with pdf_items := startItems job } : Job).job_folder_path =
            job.job_folder_path := rfl
        rcases hcase : job.job_folder_path with _ | jf
        · have hrun : ConversionWorker.run env { job with pdf_items := startItems job } =
              [Event.error "Invalid job folder path", Event.finished] := by
            unfold ConversionWorker.run
            rw [hjf', hcase]
          rw [hrun] at hmem
          simp at hmem
        · by_cases hmk : env.mkdirOk jf = true
          · have hrun : ConversionWorker.run env { job with pdf_items := startItems job } =
                runItems env jf (startItems job) 0 [] 0 ++ [Event.finished] := by
              unfold ConversionWorker.run
              rw [hjf', hcase]
              simp [FileSystemService.create_directory, hmk]
            rw [hrun] at hmem
            rcases List.mem_append.mp hmem with hmem | hmem
            · rcases runItems_mem env jf (startItems job) 0 [] 0 _ hmem with
                ⟨j1, s, heq, _, _⟩ | ⟨j1, p1, cc, n, it', heq, _, _, hget, hprot', ho', _, _, hcc⟩
              · exact absurd heq (by simp)
              · injection heq with hj1 hp1 hcc'
                subst hj1
                subst hcc'
                have hget' : (startItems job)[j]? = some it' := by
                  rw [show j - 0 = j from rfl] at hget
                  exact hget
                rw [h0] at hget'
                injection hget' with hget'
                subst hget'
                have hprotx : x.is_password_protected = false := by
                  rw [← h0'] at hprot'
                  exact hprot'
                have hn := hopen j x n hx hprotx ho'
                rw [hpage, ← hn]
                exact hcc
            · simp at hmem
          · have hmk' : env.mkdirOk jf = false := by simpa using hmk
            have hrun : ConversionWorker.run env { job with pdf_items := startItems job } =
                [Event.error "Failed to create job folder", Event.finished] := by
              unfold ConversionWorker.run
              rw [hjf', hcase]
              simp [FileSystemService.create_directory, hmk']
            rw [hrun] at hmem
            simp at hmem

theorem C8_invariants_witness :
    ((finalItems envE jobE).headD (itemOf "Report" 3 false)).completed_pages ≤
      ((finalItems envE jobE).headD (itemOf "Report" 3 false)).page_count := by
  have hopen : ∀ j it m, jobE.pdf_items[j]? = some it →
      it.is_password_protected = false → envE.openResult j = some m →
      m = it.page_count := by
    intro j it m hgt hprot ho
    have hj : j = 0 := by
      rcases j with _ | j'
      · rfl
      · rw [show jobE.pdf_items = [itemOf "Report" 3 false] from rfl] at hgt
        simp at hgt
    subst hj
    rw [show jobE.pdf_items = [itemOf "Report" 3 false] from rfl] at hgt
    rw [show envE.openResult 0 = some 3 from rfl] at ho
    injection hgt with hgt
    injection ho with ho
    rw [← hgt, ← ho]
    rfl
  exact (C8_invariants envE jobE hopen
    ((finalItems envE jobE).headD (itemOf "Report" 3 false)) (by decide)).1

/-- C4: once cancellation is requested (the flag reads true from check
point `t` on): (A) every document whose item-level check happens at or
after `t` is marked Cancelled, and the rest of the loop emits exactly those
cancelled statuses — so not-yet-started documents get no progress events;
(B) a document whose page loop is interrupted emits its progress events,
then one Cancelled status, and its completed count is kept at the count
already achieved; (C) globally no progress event follows a Cancelled status
in any run's event stream; (D) events never touch other documents' items,
so documents already in a terminal status keep it. Concretely, scenario D
(cancel after the first page of a 10-page document) ends with the
in-progress document Cancelled at completed_pages = 1, the queued document
Cancelled at 0 with no progress events, and in the variant where the first
document finished before cancellation it keeps status Completed. -/
theorem C4_cancellation (env : WorkerEnv) (jf : List String) (t : Nat)
    (ht : env.tCancel = some t) :
    (∀ (items : List PDFItem) (i0 : Nat) (ex : List String) (k : Nat), t ≤ k →
      runItems env jf items i0 ex k =
        (List.range items.length).map
          (fun j => Event.statusChanged (i0 + j) "cancelled")) ∧
    (∀ (i : Nat) (ps : List Nat) (k c : Nat) (f : List Nat), t - k < ps.length →
      (∃ evs, (runPages env i ps k c f).1 = evs ++ [Event.statusChanged i "cancelled"] ∧
        ∀ e ∈ evs, isProgressEvent e = true) ∧
      (runPages env i ps k c f).2.1 =
        c + (ps.take (t - k)).countP (fun p => env.renderOk i p)) ∧
    (∀ job : Job, noProgressAfterCancel (ConversionWorker.run env job) = true) ∧
    (∀ (evs : List Event) (items : List PDFItem) (j : Nat),
      (∀ e ∈ evs, eventDocIndex e ≠ some j) →
      (applyEvents items evs)[j]? = items[j]?) ∧
    (finalItems envD jobD).map (fun it => (it.status, it.completed_pages)) =
      [(Status.cancelled, 1), (Status.cancelled, 0)] ∧
    ConversionWorker.run envD jobD =
      [Event.statusChanged 0 "in_progress", Event.progress 0 1 1,
        Event.statusChanged 0 "cancelled", Event.statusChanged 1 "cancelled",
        Event.finished] ∧
    (finalItems envD2 jobD2).map (fun it => (it.status, it.completed_pages)) =
      [(Status.completed, 2), (Status.cancelled, 0)] := by
  refine ⟨?_, ?_, ?_, ?_, by decide, by decide, by decide⟩
  · intro items i0 ex k hk
    refine runItems_all_cancelled env jf items i0 ex k ?_
    simp [cancelRead, ht, hk]
  · intro i ps k c f hmid
    obtain ⟨h1, h2, _, _⟩ := runPages_cancel_mid env i t ht ps k c f hmid
    exact ⟨h1, h2⟩
  · intro job
    rcases hjf : job.job_folder_path with _ | jfp
    · have hrun : ConversionWorker.run env job =
          [Event.error "Invalid job folder path", Event.finished] := by
        unfold ConversionWorker.run
        rw [hjf]
      rw [hrun]
      rfl
    · by_cases hmk : env.mkdirOk jfp = true
      · have hrun : ConversionWorker.run env job =
            runItems env jfp job.pdf_items 0 [] 0 ++ [Event.finished] := by
          unfold ConversionWorker.run
          rw [hjf]
          simp [FileSystemService.create_directory, hmk]
        rw [hrun]
        refine noProgressAfterCancel_append_of
          (runItems_noProgressAfterCancel env jfp job.pdf_items 0 [] 0) _ ?_
        intro e he
        rcases List.mem_singleton.mp he with rfl
        rfl
      · have hmk' : env.mkdirOk jfp = false := by simpa using hmk
        have hrun : ConversionWorker.run env job =
            [Event.error "Failed to create job folder", Event.finished] := by
          unfold ConversionWorker.run
          rw [hjf]
          simp [FileSystemService.create_directory, hmk']
        rw [hrun]
        rfl
  · intro evs items j h
    exact applyEvents_other_index evs items j h

theorem C4_cancellation_witness :
    runItems envD ["x"] [itemOf "Doc" 10 false] 5 [] 7 =
      [Event.statusChanged 5 "cancelled"] ∧
    (∃ evs, (runPages envD 0 (List.range 10) 1 0 []).1 =
        evs ++ [Event.statusChanged 0 "cancelled"] ∧
      ∀ e ∈ evs, isProgressEvent e = true) ∧
    noProgressAfterCancel (ConversionWorker.run envD jobD) = true := by
  refine ⟨?_, ?_, ?_⟩
  · have h := (C4_cancellation envD ["x"] 2 rfl).1 [itemOf "Doc" 10 false] 5 [] 7 (by omega)
    rw [h]
    rfl
  · exact ((C4_cancellation envD ["x"] 2 rfl).2.1 0 (List.range 10) 1 0 []
      (by simp)).1
  · exact (C4_cancellation envD ["x"] 2 rfl).2.2.1 jobD
